import Mathlib

/-!
Verification development for the subcommand registration-indirection layer
(`discord/ext/subcommands/core.py`).

The source is shallowly embedded: the manager's mutable registries
(`__commands`, `_not_found`) become insertion-ordered association lists
(Python dicts), the host bot's command objects become entries of a store
indexed by natural numbers (object identity), and the stateful methods
become state-passing functions.  Exceptions are modelled by returning the
state reached at raise time together with an optional error message, which
matches Python semantics where mutations made before a `raise` persist.

Host-framework primitives that the manager calls (flat command registries,
`walk_commands`, `add_command` / `remove_command` on groups, qualified
names) are not part of this repository; they are modelled from the external
interface the specification describes: attach-child sets the child's parent
and appends it to the group's children, detach-child removes the child and
clears its parent, a flat registry removal drops the first top-level entry
with the given name.
-/

namespace Subcommands

/-! ### Python dict model: insertion-ordered association lists -/

/-- Python `d[k]` lookup (first entry with the key). -/
def dictGet {β : Type} : List (String × β) → String → Option β
  | [], _ => none
  | (k', v') :: t, k => if k' == k then some v' else dictGet t k

/-- Python `d.get(k, dflt)`. -/
def dictGetD {β : Type} (d : List (String × β)) (k : String) (dflt : β) : β :=
  (dictGet d k).getD dflt

/-- Python `d[k] = v`: replace in place if the key exists, else append. -/
def dictSet {β : Type} : List (String × β) → String → β → List (String × β)
  | [], k, v => [(k, v)]
  | (k', v') :: t, k, v => if k' == k then (k, v) :: t else (k', v') :: dictSet t k v

/-- Python `del d[k]` / `d.pop(k, None)`: drop the first entry with the key. -/
def dictDel {β : Type} : List (String × β) → String → List (String × β)
  | [], _ => []
  | (k', v') :: t, k => if k' == k then t else (k', v') :: dictDel t k

/-- Keys of an association list. -/
def dictKeys {β : Type} (d : List (String × β)) : List String :=
  d.map Prod.fst

/-! ### Command data model

Three parallel command universes exist in the host framework.  The
`isinstance` hierarchy that `core.py` branches on is flattened into a tag:
`commands.Group` and `commands.HybridCommand`/`HybridGroup` are subclasses
of `commands.Command`, `commands.HybridGroup` is a subclass of
`commands.Group`, while the `app_commands` classes are unrelated to them
(and `app_commands.Group` is not an `app_commands.Command`). -/

inductive CmdTy : Type
  /-- a plain `commands.Command` (prefix universe leaf) -/
  | pCmd
  /-- a `commands.Group` (prefix universe group) -/
  | pGroup
  /-- a `commands.HybridCommand` (hybrid universe leaf) -/
  | hCmd
  /-- a `commands.HybridGroup` (hybrid universe group) -/
  | hGroup
  /-- an `app_commands.Command` (slash universe leaf) -/
  | sCmd
  /-- an `app_commands.Group` (slash universe group) -/
  | sGroup
deriving DecidableEq, Repr

open CmdTy

/-- `isinstance(x, app_commands.Command)`. -/
def isAppCommand : CmdTy → Bool
  | sCmd => true
  | _ => false

/-- `isinstance(x, app_commands.Group)`. -/
def isAppGroup : CmdTy → Bool
  | sGroup => true
  | _ => false

/-- `isinstance(x, (app_commands.Command, app_commands.Group))`: the slash universe. -/
def isAppSide (t : CmdTy) : Bool :=
  isAppCommand t || isAppGroup t

/-- `isinstance(x, commands.Command)`; prefix and hybrid leaves AND groups,
since `Group` and the hybrid classes subclass `Command`. -/
def isExtCommand : CmdTy → Bool
  | pCmd | pGroup | hCmd | hGroup => true
  | _ => false

/-- `isinstance(x, (commands.Group, commands.HybridGroup))`. -/
def isExtGroup : CmdTy → Bool
  | pGroup | hGroup => true
  | _ => false

/-- `isinstance(x, commands.HybridCommand)`. -/
def isHybridCmd : CmdTy → Bool
  | hCmd => true
  | _ => false

/-- `isinstance(x, commands.HybridGroup)`. -/
def isHybridGroup : CmdTy → Bool
  | hGroup => true
  | _ => false

/-- The `_Subcommand` record the `@subcommand(...)` decorator stores on the
command callback: the target group name and the mutable attached-group
reference (`_group`, initially `None`). -/
structure Sub where
  groupName : String
  group : Option Nat := none
deriving DecidableEq, Repr

/-- One host command object.  `parent` and `children` model the host's
group-membership links; `sub` models the `__subcommand__` attribute stored
on the callback by the decorator (`none` for unannotated commands). -/
structure Cmd where
  name : String
  ty : CmdTy
  parent : Option Nat := none
  children : List Nat := []
  sub : Option Sub := none
deriving DecidableEq, Repr

def defaultCmd : Cmd := { name := "", ty := pCmd }

/-- Read a command object from the store (object identity = index). -/
def getCmd (st : List Cmd) (i : Nat) : Cmd :=
  (st.get? i).getD defaultCmd

/-- Update one command object in place. -/
def modifyCmd (st : List Cmd) (i : Nat) (f : Cmd → Cmd) : List Cmd :=
  st.set i (f (getCmd st i))

/-! ### Host walk and qualified names -/

/-- Preorder walk from one command: the command, then recursively its
children (`walk_commands` on the host yields each command and then recurses
into groups).  `fuel` bounds the descent depth; it is instantiated with the
store size, which is enough for any acyclic parent/child graph. -/
def walkOne (st : List Cmd) : Nat → Nat → List Nat
  | 0, i => [i]
  | fuel + 1, i => i :: ((getCmd st i).children.map (walkOne st fuel)).flatten

/-- Preorder walk of a list of sibling commands. -/
def walkList (st : List Cmd) (fuel : Nat) (l : List Nat) : List Nat :=
  (l.map (walkOne st fuel)).flatten

/-- `qualified_name`: the parent's qualified name, a space, and the name
(just the name at top level).  `fuel` bounds the parent-chain climb. -/
def qualName (st : List Cmd) : Nat → Nat → String
  | 0, i => (getCmd st i).name
  | fuel + 1, i =>
    match (getCmd st i).parent with
    | none => (getCmd st i).name
    | some p => qualName st fuel p ++ " " ++ (getCmd st i).name

/-- Remove the first entry whose command is named `nm` from a flat id list
(host `bot.remove_command` / `tree.remove_command`). -/
def removeTop (st : List Cmd) : List Nat → String → List Nat
  | [], _ => []
  | i :: rest, nm => if (getCmd st i).name == nm then rest else i :: removeTop st rest nm

/-- Host attach-child primitive (`group.add_command(cmd)`): set the child's
parent and append it to the group's children. -/
def attachChild (st : List Cmd) (g c : Nat) : List Cmd :=
  let st1 := modifyCmd st c (fun cm => { cm with parent := some g })
  modifyCmd st1 g (fun gm => { gm with children := gm.children ++ [c] })

/-- Host detach-child primitive (`group.remove_command(name)`), modelled
from the external interface of the spec: drop the first child with that
name and clear its parent. -/
def detachChildByName (st : List Cmd) (g : Nat) (nm : String) : List Cmd :=
  let ch := (getCmd st g).children
  match ch.find? (fun i => (getCmd st i).name == nm) with
  | none => st
  | some c =>
    let st1 := modifyCmd st g (fun gm => { gm with children := removeTop st gm.children nm })
    modifyCmd st1 c (fun cm => { cm with parent := none })

/-- Set (or clear) the `_group` reference on a command's `_Subcommand`. -/
def setSubGroup (st : List Cmd) (c : Nat) (g : Option Nat) : List Cmd :=
  modifyCmd st c (fun cm => { cm with sub := cm.sub.map (fun s => { s with group := g }) })

/-- The target group name of a declaration (`subcommand.group_name`). -/
def subGroupName (st : List Cmd) (c : Nat) : String :=
  ((getCmd st c).sub.getD { groupName := "" }).groupName

/-- The attached-group reference of a declaration (`subcommand._group`). -/
def subGroupRef (st : List Cmd) (c : Nat) : Option Nat :=
  (getCmd st c).sub.bind (fun s => s.group)

/-! ### Manager state -/

/-- A plugin (cog): its qualified name and the command objects it declares,
split by side (prefix/hybrid commands live in the bot's flat registry,
slash commands in the command tree). -/
structure Cog where
  name : String
  prefixCmds : List Nat := []
  appCmds : List Nat := []
deriving DecidableEq, Repr

/-- The manager's constructor flags.  `copyGroupErrorHandler` only wires an
error handler between host objects and does not touch any state modelled
here, so it is carried but has no effect in the embedding. -/
structure Config where
  copyGroupErrorHandler : Bool := false
  checkGroupType : Bool := false
deriving DecidableEq, Repr

/-- Registry buckets: plugin name to (command short name to command id),
both dicts insertion-ordered.  The `_Subcommand` objects the Python dicts
hold are shared mutable objects; sharing is modelled by storing the command
id and keeping the `_Subcommand` state inside the command store. -/
abbrev Registry := List (String × List (String × Nat))

/-- Two-level dict lookup `d[cog][nm]`. -/
def lookup2 (d : Registry) (cog nm : String) : Option Nat :=
  (dictGet d cog).bind (fun b => dictGet b nm)

/-- `defaultdict` two-level insert `d[cog][nm] = v`. -/
def dictSet2 (d : Registry) (cog nm : String) (v : Nat) : Registry :=
  dictSet d cog (dictSet (dictGetD d cog []) nm v)

/-- `del d[cog][nm]` (the bucket is present at every call site). -/
def delEntry (d : Registry) (cog nm : String) : Registry :=
  dictSet d cog (dictDel (dictGetD d cog []) nm)

/-- The whole world the manager mutates: the command-object store, the
host's two flat top-level registries, the host's loaded-cog table, and the
manager's two bookkeeping dicts (`__commands` and `_not_found`). -/
structure BotState where
  store : List Cmd
  botTop : List Nat := []
  treeTop : List Nat := []
  cogs : List (String × Cog) := []
  mgrCommands : Registry := []
  notFound : Registry := []
deriving DecidableEq, Repr

/-! ### `__get_groups` and `__find_group` -/

/-- `MultiFilesSubcommandsManager.__get_groups`: with `check_command_type`
the pool of groups relevant to the command's universe, without it all
groups of both universes (tree groups first). -/
def getGroups (s : BotState) (t : CmdTy) (checkCommandType : Bool) : List Nat :=
  let fuel := s.store.length
  let treeGroups := (walkList s.store fuel s.treeTop).filter
    (fun i => isAppGroup (getCmd s.store i).ty)
  let extGroups := (walkList s.store fuel s.botTop).filter
    (fun i => isExtGroup (getCmd s.store i).ty)
  if !checkCommandType then treeGroups ++ extGroups
  else if isAppSide t then treeGroups else extGroups

/-- Printable class name of a command object, for error messages. -/
def typeName : CmdTy → String
  | pCmd => "Command"
  | pGroup => "Group"
  | hCmd => "HybridCommand"
  | hGroup => "HybridGroup"
  | sCmd => "AppCommand"
  | sGroup => "AppGroup"

/-- `MultiFilesSubcommandsManager.__find_group`: look the declaration's
target group name up (by qualified name, first match) in the pool chosen by
the `check_group_type` flag — note the flag is passed through negated, so
`check_group_type=True` selects the permissive both-universes pool — and
then run the three sequential `isinstance` conflict checks, each of which
raises a `TypeError`. -/
def findGroup (cfg : Config) (s : BotState) (cid : Nat) : Except String (Option Nat) :=
  let gname := subGroupName s.store cid
  let ct := (getCmd s.store cid).ty
  let pool := getGroups s ct (!cfg.checkGroupType)
  match pool.find? (fun i => qualName s.store s.store.length i == gname) with
  | none => .ok none
  | some g =>
    let gt := (getCmd s.store g).ty
    if !(isAppGroup gt || isExtGroup gt) then
      .error ("Group " ++ gname ++ " for command " ++ (getCmd s.store cid).name ++
        " is not a group command. It is a " ++ typeName gt ++ ".")
    else if isAppGroup gt && !(isAppCommand ct || isAppGroup ct) then
      .error ("Cannot add " ++ typeName ct ++ " to a " ++ typeName gt ++ ".")
    else if isHybridGroup gt && !(isHybridCmd ct || isHybridGroup ct) then
      .error ("Cannot add " ++ typeName ct ++ " to a " ++ typeName gt ++ ".")
    else if isExtGroup gt && !(isExtCommand ct || isExtGroup ct) then
      .error ("Cannot add " ++ typeName ct ++ " to a " ++ typeName gt ++ ".")
    else .ok (some g)

instance exceptDecEq : DecidableEq (Except String (Option Nat)) := fun a b =>
  match a, b with
  | .error x, .error y =>
    if h : x = y then isTrue (by rw [h])
    else isFalse (by intro hh; cases hh; exact h rfl)
  | .error _, .ok _ => isFalse (by intro hh; cases hh)
  | .ok _, .error _ => isFalse (by intro hh; cases hh)
  | .ok x, .ok y =>
    if h : x = y then isTrue (by rw [h])
    else isFalse (by intro hh; cases hh; exact h rfl)

/-! ### Attach / detach handlers -/

/-- `__handle_prefix_hybrid_command("ADD", ...)`: fail loudly when the
command already has a parent; otherwise record the group on the
`_Subcommand`, remove the command from the bot's flat registry, and attach
it as a child of the group. -/
def handleExtAdd (s : BotState) (cid gid : Nat) : Except String BotState :=
  let c := getCmd s.store cid
  match c.parent with
  | some p =>
    .error ("Command " ++ c.name ++ " is already a subcommand on group: " ++
      qualName s.store s.store.length p ++ ".")
  | none =>
    let st1 := setSubGroup s.store cid (some gid)
    let bot1 := removeTop st1 s.botTop c.name
    let st2 := attachChild st1 gid cid
    .ok { s with store := st2, botTop := bot1 }

/-- `__handle_app_command("ADD", ...)`: the same steps against the command
tree instead of the bot's flat registry. -/
def handleAppAdd (s : BotState) (cid gid : Nat) : Except String BotState :=
  let c := getCmd s.store cid
  match c.parent with
  | some p =>
    .error ("Command " ++ c.name ++ " is already a subcommand on group: " ++
      qualName s.store s.store.length p ++ ".")
  | none =>
    let st1 := setSubGroup s.store cid (some gid)
    let tree1 := removeTop st1 s.treeTop c.name
    let st2 := attachChild st1 gid cid
    .ok { s with store := st2, treeTop := tree1 }

/-- `__handle_prefix_hybrid_command("REMOVE", ...)`: a silent no-op when
the declaration was never attached; otherwise detach the command from its
recorded group and clear the `_group` reference. -/
def handleExtRemove (s : BotState) (cid : Nat) : BotState :=
  match subGroupRef s.store cid with
  | none => s
  | some g =>
    let st1 := detachChildByName s.store g (getCmd s.store cid).name
    { s with store := setSubGroup st1 cid none }

/-- `__handle_app_command("REMOVE", ...)`: identical behaviour on the
modelled state (the source only differs by a debug print). -/
def handleAppRemove (s : BotState) (cid : Nat) : BotState :=
  handleExtRemove s cid

/-! ### The resolution pass (`__handle_commands`) -/

/-- One declaration of the pass body: find the group (propagating its
`TypeError`s), dispatch to the universe-appropriate ADD handler
(propagating its loud double-attach failure), and on success delete the
entry from `_not_found` under the command's short name.  Errors carry the
state reached so far, as Python exceptions do. -/
def processDecl (cfg : Config) (cog : String) (cid : Nat) (s : BotState) :
    BotState × Option String :=
  match findGroup cfg s cid with
  | .error e => (s, some e)
  | .ok none => (s, none)
  | .ok (some g) =>
    if isAppSide (getCmd s.store cid).ty then
      match handleAppAdd s cid g with
      | .error e => (s, some e)
      | .ok s1 => ({ s1 with notFound := delEntry s1.notFound cog (getCmd s1.store cid).name }, none)
    else
      match handleExtAdd s cid g with
      | .error e => (s, some e)
      | .ok s1 => ({ s1 with notFound := delEntry s1.notFound cog (getCmd s1.store cid).name }, none)

/-- The inner loop of the pass over one plugin's snapshot bucket; the first
uncaught exception aborts everything. -/
def passBucket (cfg : Config) (cog : String) :
    List (String × Nat) → BotState → BotState × Option String
  | [], s => (s, none)
  | (_, cid) :: rest, s =>
    match processDecl cfg cog cid s with
    | (s1, some e) => (s1, some e)
    | (s1, none) => passBucket cfg cog rest s1

/-- The outer loop of the pass over the snapshot of `_not_found`; after a
plugin's bucket is processed, an emptied live bucket is dropped. -/
def passCogs (cfg : Config) : Registry → BotState → BotState × Option String
  | [], s => (s, none)
  | (cog, bucket) :: rest, s =>
    match passBucket cfg cog bucket s with
    | (s1, some e) => (s1, some e)
    | (s1, none) =>
      let s2 :=
        if (dictGetD s1.notFound cog []).isEmpty then
          { s1 with notFound := dictDel s1.notFound cog }
        else s1
      passCogs cfg rest s2

/-- `MultiFilesSubcommandsManager.__handle_commands`: run the resolution
pass over a snapshot of all still-unresolved declarations of all plugins. -/
def handleCommands (cfg : Config) (s : BotState) : BotState × Option String :=
  passCogs cfg s.notFound s

/-! ### Plugin load / unload interception -/

/-- The original `bot.add_cog`: register the cog's commands in the host's
flat registries and record the cog. -/
def originalAddCog (s : BotState) (c : Cog) : BotState :=
  { s with botTop := s.botTop ++ c.prefixCmds, treeTop := s.treeTop ++ c.appCmds,
           cogs := dictSet s.cogs c.name c }

/-- The recording loop of `__cog_add`: every annotated command of the cog
enters both bookkeeping dicts under its short name. -/
def recordPending (c : Cog) (s : BotState) : BotState :=
  let fuel := s.store.length
  let pend := (walkList s.store fuel c.prefixCmds ++ walkList s.store fuel c.appCmds).filter
    (fun i => (getCmd s.store i).sub.isSome)
  pend.foldl (fun st i =>
    { st with
      mgrCommands := dictSet2 st.mgrCommands c.name (getCmd st.store i).name i,
      notFound := dictSet2 st.notFound c.name (getCmd st.store i).name i }) s

/-- `__cog_add`: delegate to the original `add_cog` (which registers the
cog's commands in the host's tree), record every annotated command of the
cog in both bookkeeping dicts keyed by its short name, and run the
resolution pass. -/
def cogAdd (cfg : Config) (s : BotState) (c : Cog) : BotState × Option String :=
  handleCommands cfg (recordPending c (originalAddCog s c))

/-- The original `bot.remove_cog`: drop the cog's parentless prefix
commands and its top-level slash commands from the host registries and
forget the cog. -/
def originalRemoveCog (s : BotState) (n : String) : BotState :=
  match dictGet s.cogs n with
  | none => s
  | some c =>
    { s with
      botTop := c.prefixCmds.foldl (fun acc i =>
        if (getCmd s.store i).parent.isNone then removeTop s.store acc (getCmd s.store i).name
        else acc) s.botTop,
      treeTop := c.appCmds.foldl (fun acc i =>
        removeTop s.store acc (getCmd s.store i).name) s.treeTop,
      cogs := dictDel s.cogs n }

/-- The detach loop of `__cog_remove`: the REMOVE handler on every
declaration the plugin contributed. -/
def detachAll (bucket : List (String × Nat)) (s : BotState) : BotState :=
  bucket.foldl (fun st p =>
    if isAppSide (getCmd st.store p.2).ty then handleAppRemove st p.2
    else handleExtRemove st p.2) s

/-- `__cog_remove`: delegate to the original `remove_cog`, detach every
declaration the plugin contributed, and drop the plugin's bucket from both
dicts. -/
def cogRemove (s : BotState) (n : String) : BotState :=
  let s1 := originalRemoveCog s n
  let s2 := detachAll (dictGetD s1.mgrCommands n []) s1
  { s2 with mgrCommands := dictDel s2.mgrCommands n, notFound := dictDel s2.notFound n }

/-! ### `difflib.get_close_matches` model

`raise_for_remaining_commands` asks `difflib` for the closest candidate
with `n=1, cutoff=0.0`.  `SequenceMatcher.ratio()` (no junk, short
strings) is `2*M/T` where `T` is the total length and `M` the total size of
the matching blocks: recursively, the longest common contiguous block —
ties resolved to the earliest start in `a`, then in `b` — plus the blocks
of the pieces to its left and to its right.  The fraction is modelled as an
exact rational; a zero total length yields ratio `1.0` as in `difflib`. -/

/-- Length of the common prefix of two character lists. -/
def commonPrefixLen : List Char → List Char → Nat
  | a :: as, b :: bs => if a = b then commonPrefixLen as bs + 1 else 0
  | _, _ => 0

/-- The longest matching block of `a` and `b` as `(i, j, k)`: maximal
length `k`, earliest start `i` in `a`, then earliest start `j` in `b`
(strict improvement while scanning `i` then `j` ascending). -/
def bestMatch (a b : List Char) : Nat × Nat × Nat :=
  (List.range a.length).foldl (fun acc i =>
    (List.range b.length).foldl (fun acc2 j =>
      let k := commonPrefixLen (a.drop i) (b.drop j)
      if k > acc2.2.2 then (i, j, k) else acc2) acc) (0, 0, 0)

/-- Total size of all matching blocks (the `M` of `ratio`). -/
def matchTotal : Nat → List Char → List Char → Nat
  | 0, _, _ => 0
  | fuel + 1, a, b =>
    let m := bestMatch a b
    if m.2.2 = 0 then 0
    else
      m.2.2 + matchTotal fuel (a.take m.1) (b.take m.2.1) +
        matchTotal fuel (a.drop (m.1 + m.2.2)) (b.drop (m.2.1 + m.2.2))

/-- Numerator of `SequenceMatcher(a := x, b := w).ratio()` as an exact
fraction (`2*M`, or `1` for two empty strings where `difflib` defines the
ratio as `1.0`). -/
def scoreNum (x w : String) : Nat :=
  if x.length + w.length = 0 then 1
  else 2 * matchTotal (x.length + 1) x.toList w.toList

/-- Denominator of the same exact fraction (the total length `T`). -/
def scoreDen (x w : String) : Nat :=
  if x.length + w.length = 0 then 1 else x.length + w.length

/-- `ratio(x, w) ≤ ratio(y, w)`, compared exactly by cross-multiplication
of the fractions `scoreNum/scoreDen`. -/
def scoreLe (w x y : String) : Prop :=
  scoreNum x w * scoreDen y w ≤ scoreNum y w * scoreDen x w

instance scoreLeDec (w x y : String) : Decidable (scoreLe w x y) :=
  inferInstanceAs (Decidable (_ ≤ _))

/-- Python string comparison (code-point lexicographic `<`). -/
def charsLt : List Char → List Char → Bool
  | [], [] => false
  | [], _ :: _ => true
  | _ :: _, [] => false
  | a :: as, b :: bs =>
    if a.val < b.val then true else if b.val < a.val then false else charsLt as bs

/-- Does candidate `x` beat the current best `b` for word `w`?
`heapq.nlargest(1, [(ratio, candidate), ...])` maximises the pair, so ties
on the ratio fall back to the larger candidate string. -/
def betterCand (w x b : String) : Bool :=
  if scoreNum x w * scoreDen b w = scoreNum b w * scoreDen x w then
    charsLt b.toList x.toList
  else decide (scoreNum b w * scoreDen x w < scoreNum x w * scoreDen b w)

/-- Fold of `get_close_matches(word, cands, n=1, cutoff=0.0)`: with cutoff
zero every candidate qualifies, so the result is the maximal one. -/
def pickBest (w : String) : Option String → List String → Option String
  | best, [] => best
  | none, x :: rest => pickBest w (some x) rest
  | some b, x :: rest => pickBest w (some (if betterCand w x b then x else b)) rest

/-- `get_close_matches(word, cands, n=1, cutoff=0.0)` (first element). -/
def getCloseMatches (w : String) (cands : List String) : Option String :=
  pickBest w none cands

/-! ### `raise_for_remaining_commands` -/

/-- `_determine_command_type`: the `isinstance` chain tests
`app_commands.Command`, then `commands.Command` (which also catches the
prefix and hybrid group classes), then the group classes. -/
def determineCommandType : CmdTy → String
  | sCmd => "app command"
  | sGroup => "group"
  | _ => "command"

/-- `_determine_command_group`, same chain. -/
def determineCommandGroup : CmdTy → String
  | sCmd => "App command group"
  | sGroup => "Group"
  | _ => "Command group"

/-- The candidate qualified group names offered to `get_close_matches` for
one declaration: all groups relevant to the command's universe
(`__get_groups(subcommand._command)` with its default type check). -/
def candNames (s : BotState) (cid : Nat) : List String :=
  (getGroups s (getCmd s.store cid).ty true).map (qualName s.store s.store.length)

/-- The diagnostic for one unresolved entry, including the best-effort
closest match among the groups relevant to the command's universe.  The
source `repr`-quotes the interpolated names; the quoting characters are
immaterial to every property stated here and are omitted. -/
def reportMsg (s : BotState) (cog nm : String) (cid : Nat) : String :=
  determineCommandGroup (getCmd s.store cid).ty ++ " " ++ subGroupName s.store cid ++
    " for " ++ determineCommandType (getCmd s.store cid).ty ++ " " ++ nm ++ " in cog " ++
    cog ++ " was not found." ++
  (match getCloseMatches nm (candNames s cid) with
    | some m => " Did you mean " ++ m ++ "?"
    | none => "")

/-- All `_not_found` entries as `(cog, key, command id)` in iteration order. -/
def pendingEntries : Registry → List (String × String × Nat)
  | [] => []
  | (cog, b) :: t => b.map (fun q => (cog, q.1, q.2)) ++ pendingEntries t

/-- The first `_not_found` entry whose `_Subcommand` has no attached group:
the one `raise_for_remaining_commands` raises about. -/
def firstUnresolved (s : BotState) : Option (String × String × Nat) :=
  (pendingEntries s.notFound).find? (fun e => (subGroupRef s.store e.2.2).isNone)

/-- `raise_for_remaining_commands`: `some message` models the raised
`RuntimeError`, `none` a silent return. -/
def raiseForRemaining (s : BotState) : Option String :=
  (firstUnresolved s).map (fun e => reportMsg s e.1 e.2.1 e.2.2)

/-! ### Operation sequences -/

/-- The manager operations a host application can trigger. -/
inductive Op : Type
  | load (c : Cog)
  | unload (n : String)
  | pass
  | report
deriving DecidableEq, Repr

/-- One operation's effect on the state (a raised error leaves the state
reached at raise time; the report never mutates state). -/
def runOp (cfg : Config) (s : BotState) : Op → BotState
  | .load c => (cogAdd cfg s c).1
  | .unload n => cogRemove s n
  | .pass => (handleCommands cfg s).1
  | .report => s

/-- Run a sequence of operations. -/
def runOps (cfg : Config) (s : BotState) : List Op → BotState
  | [] => s
  | op :: rest => runOps cfg (runOp cfg s op) rest

/-- Substring containment, used to state that a diagnostic identifies a
plugin, command or group by name. -/
def strSub (p q : String) : Prop :=
  p.data <:+: q.data

instance strSubDec (p q : String) : Decidable (strSub p q) :=
  inferInstanceAs (Decidable (p.data <:+: q.data))

/-! ### Well-formedness of the registries -/

/-- Dict well-formedness: unique keys at the outer level and inside every
bucket (automatic for states built through the manager's operations). -/
def RegWF (d : Registry) : Prop :=
  (dictKeys d).Nodup ∧ ∀ p ∈ d, (dictKeys p.2).Nodup

/-- Both manager registries are well-formed dicts. -/
def StateWF (s : BotState) : Prop :=
  RegWF s.mgrCommands ∧ RegWF s.notFound

/-- The spec's registry invariant: every still-unresolved entry is also in
the all-known collection, for the same plugin and under the same key. -/
def RegInv (s : BotState) : Prop :=
  ∀ cog nm cid, lookup2 s.notFound cog nm = some cid →
    lookup2 s.mgrCommands cog nm = some cid

/-! ### Concrete scenario states

Each state below is reached from an empty manager through the public
operations only (plugin loads / unloads), so every claim settled on one of
them is settled on a reachable registry configuration. -/

/-- The default configuration (both flags off). -/
def cfgD : Config := {}

/-- The configuration with `check_group_type=True`. -/
def cfgT : Config := { checkGroupType := true }

/-- Two plugins, each contributing one annotated command whose target group
is never registered; no groups exist at all. -/
def c1Store : List Cmd := [
  { name := "x", ty := CmdTy.pCmd, sub := some { groupName := "gx" } },
  { name := "qq", ty := CmdTy.pCmd, sub := some { groupName := "gq" } } ]

/-- The registry after loading both plugins of `c1Store`. -/
def c1State : BotState :=
  (cogAdd cfgD ((cogAdd cfgD { store := c1Store } { name := "A", prefixCmds := [0] }).1)
    { name := "B", prefixCmds := [1] }).1

/-- The first unresolved entry's message in `c1State`. -/
def c1Msg : String := "Command group gx for command x in cog A was not found."

/-- Registered prefix groups `xz` and `ac`; the plugin `CogB` declares a
command named `ab` that wants the never-registered group `xy`. -/
def c2Store : List Cmd := [
  { name := "xz", ty := CmdTy.pGroup },
  { name := "ac", ty := CmdTy.pGroup },
  { name := "ab", ty := CmdTy.pCmd, sub := some { groupName := "xy" } } ]

/-- The registry after loading both plugins of `c2Store`. -/
def c2State : BotState :=
  (cogAdd cfgD ((cogAdd cfgD { store := c2Store } { name := "CogA", prefixCmds := [0, 1] }).1)
    { name := "CogB", prefixCmds := [2] }).1

/-- The message the report raises on `c2State`. -/
def c2Msg : String :=
  "Command group xy for command ab in cog CogB was not found. Did you mean ac?"

/-- The spec's own example: only group `user` registered, a command
`whenjoin` annotated with `user utils`. -/
def exStore : List Cmd := [
  { name := "user", ty := CmdTy.pGroup },
  { name := "whenjoin", ty := CmdTy.pCmd, sub := some { groupName := "user utils" } } ]

/-- The registry after loading both plugins of `exStore`. -/
def exState : BotState :=
  (cogAdd cfgD ((cogAdd cfgD { store := exStore } { name := "P", prefixCmds := [0] }).1)
    { name := "Q", prefixCmds := [1] }).1

/-- A prefix group named `g` and a slash command targeting `g`: the
universes are incompatible. -/
def c3Store : List Cmd := [
  { name := "g", ty := CmdTy.pGroup },
  { name := "c", ty := CmdTy.sCmd, sub := some { groupName := "g" } } ]

/-- `c3Store` after the group's plugin is loaded (strict flag on). -/
def c3Mid : BotState :=
  (cogAdd cfgT { store := c3Store } { name := "C1", prefixCmds := [0] }).1

/-- Loading the slash command's plugin with `check_group_type=True`. -/
def c3Res : BotState × Option String :=
  cogAdd cfgT c3Mid { name := "C2", appCmds := [1] }

/-- A store with one annotated prefix command (index 0, named `cn`,
targeting `gn`) and one prefix group (index 1, named `gn`). -/
def pairStore (cn gn : String) : List Cmd := [
  { name := cn, ty := CmdTy.pCmd, sub := some { groupName := gn } },
  { name := gn, ty := CmdTy.pGroup } ]

/-- The plugin declaring the annotated command of `pairStore`. -/
def cmdCog (n : String) : Cog := { name := n, prefixCmds := [0] }

/-- The plugin declaring the group of `pairStore`. -/
def groupCog (n : String) : Cog := { name := n, prefixCmds := [1] }

/-- A reachable mid-resolution state: both objects of `pairStore "c" "g"`
are registered top-level and the declaration is still pending (it is the
state right before the pass of the command plugin's load). -/
def wState : BotState :=
  recordPending (cmdCog "A")
    (originalAddCog ((cogAdd cfgD { store := pairStore "c" "g" } (groupCog "B")).1)
      (cmdCog "A"))

/-- One plugin with one declaration whose group never appears. -/
def c5Store : List Cmd :=
  [ { name := "c", ty := CmdTy.pCmd, sub := some { groupName := "g" } } ]

/-- `c5Store` after its plugin is loaded: the entry is pending. -/
def c5Mid : BotState :=
  (cogAdd cfgD { store := c5Store } { name := "A", prefixCmds := [0] }).1

/-- `c5Mid` after the plugin is unloaded again. -/
def c5End : BotState := cogRemove c5Mid "A"

/-- A pending group: plugin `C2` declares a command `x` targeting
`user util` (iterated first) and a group `util` targeting `user`
(iterated second); plugin `C1` declares the group `user`. -/
def c7Store : List Cmd := [
  { name := "user", ty := CmdTy.pGroup },
  { name := "x", ty := CmdTy.pCmd, sub := some { groupName := "user util" } },
  { name := "util", ty := CmdTy.pGroup, sub := some { groupName := "user" } } ]

/-- `c7Store` after both plugins are loaded: the first pass attached
`util` under `user` but `x` is still pending. -/
def c7Mid : BotState :=
  (cogAdd cfgD ((cogAdd cfgD { store := c7Store } { name := "C1", prefixCmds := [0] }).1)
    { name := "C2", prefixCmds := [1, 2] }).1

/-- A second resolution pass over `c7Mid` with no intervening change. -/
def c7Res : BotState × Option String := handleCommands cfgD c7Mid

/-- A hybrid group `g`, a prefix command `x` targeting `g` (a fatal
universe conflict), a prefix command `y` targeting `h`, and a prefix group
`h` (so `y` alone would resolve). -/
def c9Store : List Cmd := [
  { name := "g", ty := CmdTy.hGroup },
  { name := "x", ty := CmdTy.pCmd, sub := some { groupName := "g" } },
  { name := "y", ty := CmdTy.pCmd, sub := some { groupName := "h" } },
  { name := "h", ty := CmdTy.pGroup } ]

/-- `c9Store` after the groups' plugin is loaded. -/
def c9Mid : BotState :=
  (cogAdd cfgD { store := c9Store } { name := "C1", prefixCmds := [0, 3] }).1

/-- Loading the plugin with the conflicting declaration. -/
def c9Res : BotState × Option String :=
  cogAdd cfgD c9Mid { name := "C2", prefixCmds := [1, 2] }

/-- One plugin declaring two annotated commands that share the short name
`n` (targets `g1` and `g2`); neither group exists. -/
def c10Store : List Cmd := [
  { name := "n", ty := CmdTy.pCmd, sub := some { groupName := "g1" } },
  { name := "n", ty := CmdTy.pCmd, sub := some { groupName := "g2" } } ]

/-- The registry after loading the plugin of `c10Store`. -/
def c10Res : BotState :=
  (cogAdd cfgD { store := c10Store } { name := "A", prefixCmds := [0, 1] }).1

/-- Load the command's plugin first, then the group's plugin. -/
def runCmdFirst (cn gn na nb : String) : BotState :=
  runOps cfgD { store := pairStore cn gn } [Op.load (cmdCog na), Op.load (groupCog nb)]

/-- Load the group's plugin first, then the command's plugin. -/
def runGroupFirst (cn gn na nb : String) : BotState :=
  runOps cfgD { store := pairStore cn gn } [Op.load (groupCog nb), Op.load (cmdCog na)]

/-- Load both plugins (group first) and then unload the command's plugin. -/
def runC8 (cn gn na nb : String) : BotState :=
  runOps cfgD { store := pairStore cn gn }
    [Op.load (groupCog nb), Op.load (cmdCog na), Op.unload na]

/-- The expected state after loading only the command's plugin: the
declaration is pending in both dicts. -/
def e6Mid (cn gn na : String) : BotState :=
  { store := pairStore cn gn, botTop := [0], treeTop := [],
    cogs := [(na, cmdCog na)], mgrCommands := [(na, [(cn, 0)])],
    notFound := [(na, [(cn, 0)])] }

/-- The expected state after loading only the group's plugin. -/
def e6MidB (cn gn nb : String) : BotState :=
  { store := pairStore cn gn, botTop := [1], treeTop := [],
    cogs := [(nb, groupCog nb)], mgrCommands := [], notFound := [] }

/-- The store of `pairStore` after the command is attached under the
group. -/
def attachedStore (cn gn : String) : List Cmd :=
  [ { name := cn, ty := CmdTy.pCmd, parent := some 1, children := [],
      sub := some { groupName := gn, group := some 1 } },
    { name := gn, ty := CmdTy.pGroup, parent := none, children := [0], sub := none } ]

/-- The expected final state of the command-first load order. -/
def e6Final (cn gn na nb : String) : BotState :=
  { store := attachedStore cn gn, botTop := [1], treeTop := [],
    cogs := [(na, cmdCog na), (nb, groupCog nb)],
    mgrCommands := [(na, [(cn, 0)])], notFound := [] }

/-- The expected final state of the group-first load order (it differs
from `e6Final` only in the host's cog-registration order). -/
def e6FinalB (cn gn na nb : String) : BotState :=
  { store := attachedStore cn gn, botTop := [1], treeTop := [],
    cogs := [(nb, groupCog nb), (na, cmdCog na)],
    mgrCommands := [(na, [(cn, 0)])], notFound := [] }

/-- The expected state after the command's plugin is unloaded again: the
command is detached and the plugin's entries are gone from both dicts. -/
def e8Final (cn gn nb : String) : BotState :=
  { store := [
      { name := cn, ty := CmdTy.pCmd, parent := none, children := [],
        sub := some { groupName := gn, group := none } },
      { name := gn, ty := CmdTy.pGroup, parent := none, children := [], sub := none } ],
    botTop := [1], treeTop := [], cogs := [(nb, groupCog nb)],
    mgrCommands := [], notFound := [] }

end Subcommands

namespace Subcommands

/-! ## Helper lemmas: store access -/

theorem getCmd_modify_self {st : List Cmd} {i : Nat} {f : Cmd → Cmd}
    (h : i < st.length) : getCmd (modifyCmd st i f) i = f (getCmd st i) := by
  simp [getCmd, modifyCmd, List.getElem?_set_eq_of_lt _ h]

theorem getCmd_modify_ne {st : List Cmd} {i j : Nat} {f : Cmd → Cmd}
    (h : i ≠ j) : getCmd (modifyCmd st i f) j = getCmd st j := by
  simp [getCmd, modifyCmd, List.getElem?_set_ne h]

/-! ## Helper lemmas: dict operations -/

theorem dictGet_dictSet_self {β : Type} (d : List (String × β)) (k : String) (v : β) :
    dictGet (dictSet d k v) k = some v := by
  induction d with
  | nil => simp [dictGet, dictSet]
  | cons p t ih =>
    by_cases h : p.1 = k
    · simp [dictGet, dictSet, h]
    · have hb : (p.1 == k) = false := beq_eq_false_iff_ne.mpr h
      simp [dictGet, dictSet, hb, ih]

theorem dictGet_dictSet_ne {β : Type} (d : List (String × β)) {k k2 : String} (v : β)
    (h : k ≠ k2) : dictGet (dictSet d k v) k2 = dictGet d k2 := by
  induction d with
  | nil => simp [dictGet, dictSet, beq_eq_false_iff_ne.mpr h]
  | cons p t ih =>
    by_cases hp : p.1 = k
    · subst hp
      simp [dictGet, dictSet, beq_eq_false_iff_ne.mpr h]
    · have hb : (p.1 == k) = false := beq_eq_false_iff_ne.mpr hp
      by_cases hp2 : p.1 = k2
      · subst hp2
        simp [dictGet, dictSet, hb]
      · simp [dictGet, dictSet, hb, beq_eq_false_iff_ne.mpr hp2, ih]

theorem dictGet_dictDel_ne {β : Type} (d : List (String × β)) {k k2 : String}
    (h : k ≠ k2) : dictGet (dictDel d k) k2 = dictGet d k2 := by
  induction d with
  | nil => simp [dictDel]
  | cons p t ih =>
    by_cases hp : p.1 = k
    · subst hp
      simp [dictGet, dictDel, beq_eq_false_iff_ne.mpr h]
    · have hb : (p.1 == k) = false := beq_eq_false_iff_ne.mpr hp
      by_cases hp2 : p.1 = k2
      · subst hp2
        simp [dictGet, dictDel, hb]
      · simp [dictGet, dictDel, hb, beq_eq_false_iff_ne.mpr hp2, ih]

theorem dictGet_some_mem {β : Type} {d : List (String × β)} {k : String} {v : β}
    (h : dictGet d k = some v) : k ∈ dictKeys d := by
  induction d with
  | nil => simp [dictGet] at h
  | cons p t ih =>
    by_cases hp : p.1 = k
    · simp [dictKeys, hp]
    · simp only [dictGet, beq_eq_false_iff_ne.mpr hp, if_false] at h
      simp only [dictKeys, List.map_cons, List.mem_cons]
      exact Or.inr (ih h)

theorem mem_dictKeys_iff {β : Type} {d : List (String × β)} {k : String} :
    k ∈ dictKeys d ↔ ∃ v, (k, v) ∈ d := by
  induction d with
  | nil => simp [dictKeys]
  | cons p t ih =>
    cases p with
    | mk k' v' =>
      simp only [dictKeys, List.map_cons, List.mem_cons] at *
      constructor
      · rintro (h | h)
        · exact ⟨v', Or.inl (by simp [h])⟩
        · obtain ⟨v, hv⟩ := ih.mp h
          exact ⟨v, Or.inr hv⟩
      · rintro ⟨v, h | h⟩
        · exact Or.inl (by cases h; rfl)
        · exact Or.inr (ih.mpr ⟨v, h⟩)

theorem dictGet_some_mem_pair {β : Type} {d : List (String × β)} {k : String} {v : β}
    (h : dictGet d k = some v) : (k, v) ∈ d := by
  induction d with
  | nil => simp [dictGet] at h
  | cons p t ih =>
    by_cases hp : p.1 = k
    · simp only [dictGet, beq_iff_eq, hp, if_true, Option.some.injEq] at h
      subst h
      simp [← hp]
    · simp only [dictGet, beq_eq_false_iff_ne.mpr hp, if_false] at h
      exact List.mem_cons_of_mem _ (ih h)

theorem mem_dictSet {β : Type} {d : List (String × β)} {k : String} {v : β} {p : String × β}
    (h : p ∈ dictSet d k v) : p ∈ d ∨ p = (k, v) := by
  induction d with
  | nil =>
    simp only [dictSet, List.mem_singleton] at h
    exact Or.inr h
  | cons q t ih =>
    by_cases hq : q.1 = k
    · simp only [dictSet, beq_iff_eq, hq, if_true, List.mem_cons] at h
      rcases h with h | h
      · exact Or.inr h
      · exact Or.inl (List.mem_cons_of_mem _ h)
    · simp only [dictSet, beq_iff_eq, hq, if_false, List.mem_cons] at h
      rcases h with h | h
      · exact Or.inl (by simp [h])
      · rcases ih h with h2 | h2
        · exact Or.inl (List.mem_cons_of_mem _ h2)
        · exact Or.inr h2

theorem mem_dictDel {β : Type} {d : List (String × β)} {k : String} {p : String × β}
    (h : p ∈ dictDel d k) : p ∈ d := by
  induction d with
  | nil => simp [dictDel] at h
  | cons q t ih =>
    by_cases hq : q.1 = k
    · simp only [dictDel, beq_iff_eq, hq, if_true] at h
      exact List.mem_cons_of_mem _ h
    · simp only [dictDel, beq_iff_eq, hq, if_false, List.mem_cons] at h
      rcases h with h | h
      · simp [h]
      · exact List.mem_cons_of_mem _ (ih h)

theorem dictKeys_dictSet_nodup {β : Type} {d : List (String × β)} (k : String) (v : β)
    (h : (dictKeys d).Nodup) : (dictKeys (dictSet d k v)).Nodup := by
  induction d with
  | nil => simp [dictSet, dictKeys]
  | cons q t ih =>
    simp only [dictKeys, List.map_cons, List.nodup_cons] at h
    by_cases hq : q.1 = k
    · subst hq
      simp only [dictSet, beq_self_eq_true, if_true, dictKeys, List.map_cons,
        List.nodup_cons]
      exact h
    · simp only [dictSet, beq_iff_eq, hq, if_false, dictKeys, List.map_cons,
        List.nodup_cons]
      refine ⟨?_, ih h.2⟩
      intro hmem
      rw [show (List.map Prod.fst (dictSet t k v) : List String) = dictKeys (dictSet t k v)
        from rfl, mem_dictKeys_iff] at hmem
      obtain ⟨w, hw⟩ := hmem
      rcases mem_dictSet hw with h2 | h2
      · exact h.1 (List.mem_map.mpr ⟨(q.1, w), h2, rfl⟩)
      · exact hq (congrArg Prod.fst h2)

theorem dictKeys_dictDel_nodup {β : Type} {d : List (String × β)} (k : String)
    (h : (dictKeys d).Nodup) : (dictKeys (dictDel d k)).Nodup := by
  induction d with
  | nil => simpa [dictDel] using h
  | cons q t ih =>
    simp only [dictKeys, List.map_cons, List.nodup_cons] at h
    by_cases hq : q.1 = k
    · simpa [dictDel, beq_iff_eq, hq] using h.2
    · simp only [dictDel, beq_iff_eq, hq, if_false, dictKeys, List.map_cons,
        List.nodup_cons]
      refine ⟨?_, ih h.2⟩
      intro hmem
      rw [show (List.map Prod.fst (dictDel t k) : List String) = dictKeys (dictDel t k)
        from rfl, mem_dictKeys_iff] at hmem
      obtain ⟨w, hw⟩ := hmem
      exact h.1 (List.mem_map.mpr ⟨(q.1, w), mem_dictDel hw, rfl⟩)

theorem dictGet_dictDel_self {β : Type} (d : List (String × β)) (k : String)
    (h : (dictKeys d).Nodup) : dictGet (dictDel d k) k = none := by
  induction d with
  | nil => simp [dictDel, dictGet]
  | cons p t ih =>
    simp only [dictKeys, List.map_cons, List.nodup_cons] at h
    by_cases hp : p.1 = k
    · subst hp
      simp only [dictDel, beq_self_eq_true, if_true]
      cases hget : dictGet t p.1 with
      | none => rfl
      | some v => exact absurd (dictGet_some_mem hget) h.1
    · have hb : (p.1 == k) = false := beq_eq_false_iff_ne.mpr hp
      simp [dictDel, dictGet, hb, ih h.2]

theorem regWF_bucket {d : Registry} (h : RegWF d) (k : String) :
    (dictKeys (dictGetD d k [])).Nodup := by
  cases hg : dictGet d k with
  | none => simp [dictGetD, hg, dictKeys]
  | some b =>
    have hb := h.2 (k, b) (dictGet_some_mem_pair hg)
    simpa [dictGetD, hg] using hb

theorem regWF_dictSet {d : Registry} {k : String} {b : List (String × Nat)}
    (h : RegWF d) (hb : (dictKeys b).Nodup) : RegWF (dictSet d k b) := by
  refine ⟨dictKeys_dictSet_nodup _ _ h.1, ?_⟩
  intro p hp
  rcases mem_dictSet hp with h2 | h2
  · exact h.2 p h2
  · subst h2
    exact hb

theorem regWF_dictDel {d : Registry} (k : String) (h : RegWF d) : RegWF (dictDel d k) :=
  ⟨dictKeys_dictDel_nodup _ h.1, fun p hp => h.2 p (mem_dictDel hp)⟩

theorem regWF_dictSet2 {d : Registry} (cog nm : String) (v : Nat) (h : RegWF d) :
    RegWF (dictSet2 d cog nm v) :=
  regWF_dictSet h (dictKeys_dictSet_nodup _ _ (regWF_bucket h cog))

theorem regWF_delEntry {d : Registry} (cog nm : String) (h : RegWF d) :
    RegWF (delEntry d cog nm) :=
  regWF_dictSet h (dictKeys_dictDel_nodup _ (regWF_bucket h cog))

theorem lookup2_eq_bucket (d : Registry) (cog b : String) :
    lookup2 d cog b = dictGet (dictGetD d cog []) b := by
  cases hg : dictGet d cog with
  | none => simp [lookup2, dictGetD, hg, dictGet]
  | some bb => simp [lookup2, dictGetD, hg]

theorem lookup2_dictSet2 (d : Registry) (cog nm : String) (v : Nat) (a b : String) :
    lookup2 (dictSet2 d cog nm v) a b =
      if a = cog then (if b = nm then some v else lookup2 d cog b)
      else lookup2 d a b := by
  by_cases ha : a = cog
  · subst ha
    rw [if_pos rfl]
    rw [show lookup2 (dictSet2 d a nm v) a b =
      dictGet (dictSet (dictGetD d a []) nm v) b by
        simp [lookup2, dictSet2, dictGet_dictSet_self]]
    by_cases hb : b = nm
    · subst hb
      simp [dictGet_dictSet_self]
    · rw [if_neg hb, dictGet_dictSet_ne _ _ (fun hh => hb hh.symm), lookup2_eq_bucket]
  · rw [if_neg ha]
    simp [lookup2, dictSet2, dictGet_dictSet_ne _ _ (fun hh => ha hh.symm)]

theorem lookup2_delEntry_ne_cog {d : Registry} {cog nm a : String} (b : String)
    (h : a ≠ cog) : lookup2 (delEntry d cog nm) a b = lookup2 d a b := by
  simp [lookup2, delEntry, dictGet_dictSet_ne _ _ (fun hh => h hh.symm)]

theorem lookup2_delEntry_cog {d : Registry} {cog nm b : String}
    (h : b ≠ nm) : lookup2 (delEntry d cog nm) cog b = lookup2 d cog b := by
  rw [show lookup2 (delEntry d cog nm) cog b =
    dictGet (dictDel (dictGetD d cog []) nm) b by
      simp [lookup2, delEntry, dictGet_dictSet_self]]
  rw [dictGet_dictDel_ne _ (fun hh => h hh.symm), lookup2_eq_bucket]

theorem lookup2_delEntry_self {d : Registry} {cog nm : String}
    (h : (dictKeys (dictGetD d cog [])).Nodup) :
    lookup2 (delEntry d cog nm) cog nm = none := by
  rw [show lookup2 (delEntry d cog nm) cog nm =
    dictGet (dictDel (dictGetD d cog []) nm) nm by
      simp [lookup2, delEntry, dictGet_dictSet_self]]
  exact dictGet_dictDel_self _ _ h

theorem lookup2_delEntry_shrink {d : Registry} {cog nm a b : String} {v : Nat}
    (hwf : RegWF d) (h : lookup2 (delEntry d cog nm) a b = some v) :
    lookup2 d a b = some v := by
  by_cases ha : a = cog
  · subst ha
    by_cases hb : b = nm
    · subst hb
      rw [lookup2_delEntry_self (regWF_bucket hwf _)] at h
      exact absurd h (by simp)
    · rwa [lookup2_delEntry_cog hb] at h
  · rwa [lookup2_delEntry_ne_cog b ha] at h

theorem lookup2_dictDel_outer {d : Registry} {n a : String} (b : String)
    (hwf : RegWF d) :
    lookup2 (dictDel d n) a b = if a = n then none else lookup2 d a b := by
  by_cases ha : a = n
  · subst ha
    simp [lookup2, dictGet_dictDel_self _ _ hwf.1]
  · simp [lookup2, ha, dictGet_dictDel_ne _ (fun hh => ha hh.symm)]

/-! ## Helper lemmas: the handlers and the pass leave `__commands` alone
and only ever shrink `_not_found` -/

theorem handleExtAdd_dicts {s : BotState} {cid gid : Nat} {s1 : BotState}
    (h : handleExtAdd s cid gid = .ok s1) :
    s1.mgrCommands = s.mgrCommands ∧ s1.notFound = s.notFound ∧
      s1.cogs = s.cogs ∧ s1.store = attachChild (setSubGroup s.store cid (some gid)) gid cid := by
  unfold handleExtAdd at h
  cases hp : (getCmd s.store cid).parent with
  | some p => simp [hp] at h
  | none =>
    simp only [hp] at h
    cases h
    exact ⟨rfl, rfl, rfl, rfl⟩

theorem handleAppAdd_dicts {s : BotState} {cid gid : Nat} {s1 : BotState}
    (h : handleAppAdd s cid gid = .ok s1) :
    s1.mgrCommands = s.mgrCommands ∧ s1.notFound = s.notFound ∧
      s1.cogs = s.cogs ∧ s1.store = attachChild (setSubGroup s.store cid (some gid)) gid cid := by
  unfold handleAppAdd at h
  cases hp : (getCmd s.store cid).parent with
  | some p => simp [hp] at h
  | none =>
    simp only [hp] at h
    cases h
    exact ⟨rfl, rfl, rfl, rfl⟩

theorem handleExtRemove_dicts (s : BotState) (cid : Nat) :
    (handleExtRemove s cid).mgrCommands = s.mgrCommands ∧
      (handleExtRemove s cid).notFound = s.notFound ∧
      (handleExtRemove s cid).cogs = s.cogs ∧
      (handleExtRemove s cid).botTop = s.botTop ∧
      (handleExtRemove s cid).treeTop = s.treeTop := by
  unfold handleExtRemove
  cases subGroupRef s.store cid <;> exact ⟨rfl, rfl, rfl, rfl, rfl⟩

/-- One pass step: `__commands` and the cog table are untouched, and
`_not_found` is only ever shrunk (every surviving entry was already there),
staying well-formed. -/
theorem processDecl_dicts {cfg : Config} {cog : String} {cid : Nat} {s : BotState} :
    (processDecl cfg cog cid s).1.mgrCommands = s.mgrCommands ∧
      (processDecl cfg cog cid s).1.cogs = s.cogs ∧
      (RegWF s.notFound → RegWF (processDecl cfg cog cid s).1.notFound ∧
        ∀ a b v, lookup2 (processDecl cfg cog cid s).1.notFound a b = some v →
          lookup2 s.notFound a b = some v) := by
  unfold processDecl
  cases hf : findGroup cfg s cid with
  | error e => exact ⟨rfl, rfl, fun hw => ⟨hw, fun _ _ _ h => h⟩⟩
  | ok og =>
    cases og with
    | none => exact ⟨rfl, rfl, fun hw => ⟨hw, fun _ _ _ h => h⟩⟩
    | some g =>
      by_cases happ : isAppSide (getCmd s.store cid).ty
      · simp only [happ, if_true]
        cases hadd : handleAppAdd s cid g with
        | error e => exact ⟨rfl, rfl, fun hw => ⟨hw, fun _ _ _ h => h⟩⟩
        | ok s1 =>
          obtain ⟨hm, hn, hc, _⟩ := handleAppAdd_dicts hadd
          dsimp only
          refine ⟨hm, hc, fun hw => ?_⟩
          rw [hn]
          exact ⟨regWF_delEntry _ _ hw, fun a b v h => lookup2_delEntry_shrink hw h⟩
      · rw [Bool.not_eq_true] at happ
        simp only [happ, Bool.false_eq_true, if_false]
        cases hadd : handleExtAdd s cid g with
        | error e => exact ⟨rfl, rfl, fun hw => ⟨hw, fun _ _ _ h => h⟩⟩
        | ok s1 =>
          obtain ⟨hm, hn, hc, _⟩ := handleExtAdd_dicts hadd
          dsimp only
          refine ⟨hm, hc, fun hw => ?_⟩
          rw [hn]
          exact ⟨regWF_delEntry _ _ hw, fun a b v h => lookup2_delEntry_shrink hw h⟩

/-- The pass inner loop over a snapshot bucket, same properties. -/
theorem passBucket_dicts {cfg : Config} {cog : String} :
    ∀ (l : List (String × Nat)) (s : BotState),
    (passBucket cfg cog l s).1.mgrCommands = s.mgrCommands ∧
      (passBucket cfg cog l s).1.cogs = s.cogs ∧
      (RegWF s.notFound → RegWF (passBucket cfg cog l s).1.notFound ∧
        ∀ a b v, lookup2 (passBucket cfg cog l s).1.notFound a b = some v →
          lookup2 s.notFound a b = some v)
  | [], s => ⟨rfl, rfl, fun hw => ⟨hw, fun _ _ _ h => h⟩⟩
  | (nm, cid) :: rest, s => by
    simp only [passBucket]
    cases hpd : processDecl cfg cog cid s with
    | mk s1 err =>
      have hd := @processDecl_dicts cfg cog cid s
      rw [hpd] at hd
      cases err with
      | some e => exact hd
      | none =>
        obtain ⟨hm, hc, hrest⟩ := passBucket_dicts rest s1
        refine ⟨hm.trans hd.1, hc.trans hd.2.1, fun hw => ?_⟩
        obtain ⟨hw1, hsh1⟩ := hd.2.2 hw
        obtain ⟨hw2, hsh2⟩ := hrest hw1
        exact ⟨hw2, fun a b v h => hsh1 a b v (hsh2 a b v h)⟩

/-- The pass outer loop, same properties (the emptied-bucket deletion also
only shrinks `_not_found`). -/
theorem passCogs_dicts {cfg : Config} :
    ∀ (l : Registry) (s : BotState),
    (passCogs cfg l s).1.mgrCommands = s.mgrCommands ∧
      (passCogs cfg l s).1.cogs = s.cogs ∧
      (RegWF s.notFound → RegWF (passCogs cfg l s).1.notFound ∧
        ∀ a b v, lookup2 (passCogs cfg l s).1.notFound a b = some v →
          lookup2 s.notFound a b = some v)
  | [], s => ⟨rfl, rfl, fun hw => ⟨hw, fun _ _ _ h => h⟩⟩
  | (cog, bucket) :: rest, s => by
    simp only [passCogs]
    cases hpb : passBucket cfg cog bucket s with
    | mk s1 err =>
      have hd := @passBucket_dicts cfg cog bucket s
      rw [hpb] at hd
      cases err with
      | some e => exact hd
      | none =>
        by_cases hempty : (dictGetD s1.notFound cog []).isEmpty
        · simp only [hempty, if_true]
          set s2 : BotState := { s1 with notFound := dictDel s1.notFound cog } with hs2
          obtain ⟨hm, hc, hrest⟩ := passCogs_dicts rest s2
          refine ⟨hm.trans hd.1, hc.trans hd.2.1, fun hw => ?_⟩
          obtain ⟨hw1, hsh1⟩ := hd.2.2 hw
          have hw2 : RegWF s2.notFound := regWF_dictDel _ hw1
          obtain ⟨hw3, hsh3⟩ := hrest hw2
          refine ⟨hw3, fun a b v h => ?_⟩
          have h2 := hsh3 a b v h
          rw [hs2] at h2
          simp only at h2
          rw [lookup2_dictDel_outer b hw1] at h2
          by_cases ha : a = cog
          · simp [ha] at h2
          · rw [if_neg ha] at h2
            exact hsh1 a b v h2
        · simp only [hempty, if_false]
          obtain ⟨hm, hc, hrest⟩ := passCogs_dicts rest s1
          refine ⟨hm.trans hd.1, hc.trans hd.2.1, fun hw => ?_⟩
          obtain ⟨hw1, hsh1⟩ := hd.2.2 hw
          obtain ⟨hw2, hsh2⟩ := hrest hw1
          exact ⟨hw2, fun a b v h => hsh1 a b v (hsh2 a b v h)⟩

/-- The whole resolution pass, same properties. -/
theorem handleCommands_dicts {cfg : Config} {s : BotState} :
    (handleCommands cfg s).1.mgrCommands = s.mgrCommands ∧
      (handleCommands cfg s).1.cogs = s.cogs ∧
      (RegWF s.notFound → RegWF (handleCommands cfg s).1.notFound ∧
        ∀ a b v, lookup2 (handleCommands cfg s).1.notFound a b = some v →
          lookup2 s.notFound a b = some v) :=
  passCogs_dicts s.notFound s

/-- The pass preserves dict well-formedness and the registry invariant. -/
theorem handleCommands_pres {cfg : Config} {s : BotState}
    (hwf : StateWF s) (hinv : RegInv s) :
    StateWF (handleCommands cfg s).1 ∧ RegInv (handleCommands cfg s).1 := by
  obtain ⟨hm, hc, hrest⟩ := @handleCommands_dicts cfg s
  obtain ⟨hw1, hsh⟩ := hrest hwf.2
  refine ⟨⟨?_, hw1⟩, ?_⟩
  · rw [hm]
    exact hwf.1
  · intro a b cid h
    rw [hm]
    exact hinv a b cid (hsh a b cid h)

/-- The recording fold of `__cog_add` adds every annotated command to both
dicts under the same key, so it preserves well-formedness and the
invariant. -/
theorem foldAdd_pres (c : Cog) :
    ∀ (l : List Nat) (s : BotState), StateWF s → RegInv s →
    StateWF (l.foldl (fun st i =>
      { st with
        mgrCommands := dictSet2 st.mgrCommands c.name (getCmd st.store i).name i,
        notFound := dictSet2 st.notFound c.name (getCmd st.store i).name i }) s) ∧
    RegInv (l.foldl (fun st i =>
      { st with
        mgrCommands := dictSet2 st.mgrCommands c.name (getCmd st.store i).name i,
        notFound := dictSet2 st.notFound c.name (getCmd st.store i).name i }) s)
  | [], s, hwf, hinv => ⟨hwf, hinv⟩
  | i :: rest, s, hwf, hinv => by
    simp only [List.foldl_cons]
    apply foldAdd_pres c rest
    · exact ⟨regWF_dictSet2 _ _ _ hwf.1, regWF_dictSet2 _ _ _ hwf.2⟩
    · intro a b cid h
      simp only at h ⊢
      rw [lookup2_dictSet2] at h ⊢
      by_cases ha : a = c.name
      · by_cases hb : b = (getCmd s.store i).name
        · simpa [ha, hb] using h
        · rw [if_pos ha, if_neg hb] at h ⊢
          exact hinv c.name b cid h
      · rw [if_neg ha] at h ⊢
        exact hinv a b cid h

/-- `recordPending` preserves well-formedness and the invariant. -/
theorem recordPending_pres {c : Cog} {s : BotState}
    (hwf : StateWF s) (hinv : RegInv s) :
    StateWF (recordPending c s) ∧ RegInv (recordPending c s) :=
  foldAdd_pres c _ s hwf hinv

/-- `originalAddCog` does not touch the manager dicts. -/
theorem originalAddCog_pres {s : BotState} {c : Cog}
    (hwf : StateWF s) (hinv : RegInv s) :
    StateWF (originalAddCog s c) ∧ RegInv (originalAddCog s c) :=
  ⟨⟨hwf.1, hwf.2⟩, fun a b cid h => hinv a b cid h⟩

/-- Plugin load preserves dict well-formedness and the registry invariant. -/
theorem cogAdd_pres {cfg : Config} {s : BotState} {c : Cog}
    (hwf : StateWF s) (hinv : RegInv s) :
    StateWF (cogAdd cfg s c).1 ∧ RegInv (cogAdd cfg s c).1 := by
  unfold cogAdd
  have h1 := originalAddCog_pres (c := c) hwf hinv
  have h2 := recordPending_pres (c := c) h1.1 h1.2
  exact handleCommands_pres h2.1 h2.2

/-- The detach fold of `__cog_remove` never touches the two dicts. -/
theorem detachAll_dicts :
    ∀ (l : List (String × Nat)) (s : BotState),
    (detachAll l s).mgrCommands = s.mgrCommands ∧ (detachAll l s).notFound = s.notFound
  | [], _ => ⟨rfl, rfl⟩
  | p :: rest, s => by
    simp only [detachAll, List.foldl_cons]
    have hd : ∀ s2 : BotState,
        (if isAppSide (getCmd s.store p.2).ty then handleAppRemove s p.2
          else handleExtRemove s p.2) = s2 →
        s2.mgrCommands = s.mgrCommands ∧ s2.notFound = s.notFound := by
      intro s2 hs2
      by_cases happ : isAppSide (getCmd s.store p.2).ty
      · rw [if_pos happ] at hs2
        rw [← hs2]
        exact ⟨(handleExtRemove_dicts s p.2).1, (handleExtRemove_dicts s p.2).2.1⟩
      · rw [if_neg happ] at hs2
        rw [← hs2]
        exact ⟨(handleExtRemove_dicts s p.2).1, (handleExtRemove_dicts s p.2).2.1⟩
    obtain ⟨hm, hn⟩ := detachAll_dicts rest
      (if isAppSide (getCmd s.store p.2).ty then handleAppRemove s p.2
        else handleExtRemove s p.2)
    obtain ⟨hm2, hn2⟩ := hd _ rfl
    exact ⟨by rw [detachAll] at hm; rw [hm, hm2], by rw [detachAll] at hn; rw [hn, hn2]⟩

/-- `originalRemoveCog` does not touch the manager dicts. -/
theorem originalRemoveCog_dicts (s : BotState) (n : String) :
    (originalRemoveCog s n).mgrCommands = s.mgrCommands ∧
      (originalRemoveCog s n).notFound = s.notFound := by
  unfold originalRemoveCog
  cases dictGet s.cogs n <;> exact ⟨rfl, rfl⟩

/-- `__cog_remove` drops the plugin's bucket from both dicts and otherwise
leaves them unchanged. -/
theorem cogRemove_dicts (s : BotState) (n : String) :
    (cogRemove s n).mgrCommands = dictDel s.mgrCommands n ∧
      (cogRemove s n).notFound = dictDel s.notFound n := by
  unfold cogRemove
  obtain ⟨hm1, hn1⟩ := originalRemoveCog_dicts s n
  obtain ⟨hm2, hn2⟩ := detachAll_dicts
    (dictGetD (originalRemoveCog s n).mgrCommands n []) (originalRemoveCog s n)
  exact ⟨by simp only; rw [hm2, hm1], by simp only; rw [hn2, hn1]⟩

/-- Plugin unload preserves dict well-formedness and the registry
invariant. -/
theorem cogRemove_pres {s : BotState} {n : String}
    (hwf : StateWF s) (hinv : RegInv s) :
    StateWF (cogRemove s n) ∧ RegInv (cogRemove s n) := by
  obtain ⟨hm, hn⟩ := cogRemove_dicts s n
  refine ⟨⟨?_, ?_⟩, ?_⟩
  · rw [hm]
    exact regWF_dictDel _ hwf.1
  · rw [hn]
    exact regWF_dictDel _ hwf.2
  · intro a b cid h
    rw [hn, lookup2_dictDel_outer b hwf.2] at h
    by_cases ha : a = n
    · rw [if_pos ha] at h
      exact absurd h (by simp)
    · rw [if_neg ha] at h
      rw [hm, lookup2_dictDel_outer b hwf.1, if_neg ha]
      exact hinv a b cid h

/-- Any sequence of manager operations preserves dict well-formedness and
the registry invariant. -/
theorem runOps_pres {cfg : Config} :
    ∀ (ops : List Op) (s : BotState), StateWF s → RegInv s →
    StateWF (runOps cfg s ops) ∧ RegInv (runOps cfg s ops)
  | [], _, hwf, hinv => ⟨hwf, hinv⟩
  | op :: rest, s, hwf, hinv => by
    have h1 : StateWF (runOp cfg s op) ∧ RegInv (runOp cfg s op) := by
      cases op with
      | load c => exact cogAdd_pres hwf hinv
      | unload n => exact cogRemove_pres hwf hinv
      | pass => exact handleCommands_pres hwf hinv
      | report => exact ⟨hwf, hinv⟩
    exact runOps_pres rest _ h1.1 h1.2

/-! ## Helper lemmas: substring containment -/

theorem strData_append (a b : String) : (a ++ b).data = a.data ++ b.data := rfl

theorem strSub_self (p : String) : strSub p p :=
  ⟨[], [], by simp⟩

theorem strSub_append_left {p q : String} (r : String) (h : strSub p q) :
    strSub p (q ++ r) := by
  obtain ⟨x, y, hxy⟩ := h
  exact ⟨x, y ++ r.data, by rw [strData_append, ← hxy]; simp⟩

theorem strSub_append_right {p r : String} (q : String) (h : strSub p r) :
    strSub p (q ++ r) := by
  obtain ⟨x, y, hxy⟩ := h
  exact ⟨q.data ++ x, y, by rw [strData_append, ← hxy]; simp⟩

/-! ## Helper lemmas: the closest-match pick maximises the score -/

theorem scoreDen_pos (x w : String) : 0 < scoreDen x w := by
  unfold scoreDen
  by_cases h : x.length + w.length = 0
  · simp [h]
  · simp [h, Nat.pos_of_ne_zero h]

theorem scoreLe_refl (w x : String) : scoreLe w x x := le_refl _

theorem scoreLe_trans {w x y z : String} (h1 : scoreLe w x y) (h2 : scoreLe w y z) :
    scoreLe w x z := by
  unfold scoreLe at *
  have hd : 0 < scoreDen y w := scoreDen_pos y w
  have hm1 : scoreNum x w * scoreDen y w * scoreDen z w ≤
      scoreNum y w * scoreDen x w * scoreDen z w :=
    Nat.mul_le_mul_right _ h1
  have hm2 : scoreNum y w * scoreDen z w * scoreDen x w ≤
      scoreNum z w * scoreDen y w * scoreDen x w :=
    Nat.mul_le_mul_right _ h2
  have key : scoreDen y w * (scoreNum x w * scoreDen z w) ≤
      scoreDen y w * (scoreNum z w * scoreDen x w) := by
    calc scoreDen y w * (scoreNum x w * scoreDen z w)
        = scoreNum x w * scoreDen y w * scoreDen z w := by ring
      _ ≤ scoreNum y w * scoreDen x w * scoreDen z w := hm1
      _ = scoreNum y w * scoreDen z w * scoreDen x w := by ring
      _ ≤ scoreNum z w * scoreDen y w * scoreDen x w := hm2
      _ = scoreDen y w * (scoreNum z w * scoreDen x w) := by ring
  exact Nat.le_of_mul_le_mul_left key hd

theorem le_of_betterCand {w x b : String} (h : betterCand w x b = true) :
    scoreLe w b x := by
  unfold betterCand at h
  unfold scoreLe
  by_cases he : scoreNum x w * scoreDen b w = scoreNum b w * scoreDen x w
  · exact le_of_eq he.symm
  · rw [if_neg he] at h
    exact le_of_lt (of_decide_eq_true h)

theorem le_of_not_betterCand {w x b : String} (h : betterCand w x b = false) :
    scoreLe w x b := by
  unfold betterCand at h
  unfold scoreLe
  by_cases he : scoreNum x w * scoreDen b w = scoreNum b w * scoreDen x w
  · exact le_of_eq he
  · rw [if_neg he] at h
    exact le_of_not_lt (of_decide_eq_false h)

theorem pickBest_spec (w : String) :
    ∀ (l : List String) (b : String),
    ∃ m, pickBest w (some b) l = some m ∧ (m = b ∨ m ∈ l) ∧
      scoreLe w b m ∧ ∀ x ∈ l, scoreLe w x m
  | [], b => ⟨b, rfl, Or.inl rfl, scoreLe_refl w b, by simp⟩
  | x :: rest, b => by
    obtain ⟨m, hm, hmem, hble, hall⟩ :=
      pickBest_spec w rest (if betterCand w x b then x else b)
    have hstep : pickBest w (some b) (x :: rest) =
        pickBest w (some (if betterCand w x b then x else b)) rest := rfl
    have hb2 : scoreLe w b (if betterCand w x b then x else b) := by
      by_cases hc : betterCand w x b
      · rw [if_pos hc]
        exact le_of_betterCand hc
      · rw [if_neg hc]
        exact scoreLe_refl w b
    have hx2 : scoreLe w x (if betterCand w x b then x else b) := by
      by_cases hc : betterCand w x b
      · rw [if_pos hc]
        exact scoreLe_refl w x
      · rw [if_neg hc]
        exact le_of_not_betterCand (Bool.not_eq_true _ ▸ eq_false_of_ne_true hc)
    refine ⟨m, hstep.trans hm, ?_, scoreLe_trans hb2 hble, ?_⟩
    · rcases hmem with hm1 | hm1
      · by_cases hc : betterCand w x b
        · rw [if_pos hc] at hm1
          exact Or.inr (by simp [hm1])
        · rw [if_neg hc] at hm1
          exact Or.inl hm1
      · exact Or.inr (List.mem_cons_of_mem _ hm1)
    · intro y hy
      rcases List.mem_cons.mp hy with hy1 | hy1
      · subst hy1
        exact scoreLe_trans hx2 hble
      · exact hall y hy1

/-- `get_close_matches(word, cands, n=1, cutoff=0.0)` on a nonempty
candidate list returns a candidate whose ratio to `word` is maximal. -/
theorem getCloseMatches_spec (w : String) (l : List String) (hl : l ≠ []) :
    ∃ m, getCloseMatches w l = some m ∧ m ∈ l ∧ ∀ x ∈ l, scoreLe w x m := by
  cases l with
  | nil => exact absurd rfl hl
  | cons x rest =>
    obtain ⟨m, hm, hmem, hxle, hall⟩ := pickBest_spec w rest x
    refine ⟨m, hm, ?_, ?_⟩
    · rcases hmem with h1 | h1
      · simp [h1]
      · exact List.mem_cons_of_mem _ h1
    · intro y hy
      rcases List.mem_cons.mp hy with hy1 | hy1
      · subst hy1
        exact hxle
      · exact hall y hy1

/-! ## Helper lemmas: effects of the attach steps on the store -/

theorem modifyCmd_length (st : List Cmd) (i : Nat) (f : Cmd → Cmd) :
    (modifyCmd st i f).length = st.length := by
  simp [modifyCmd]

theorem getCmd_modify_oor {st : List Cmd} {i : Nat} (j : Nat) {f : Cmd → Cmd}
    (h : st.length ≤ i) : getCmd (modifyCmd st i f) j = getCmd st j := by
  rw [modifyCmd, List.set_eq_of_length_le h]

/-- A pointwise field-preserving update leaves every command's name alone. -/
theorem getCmd_modify_name {st : List Cmd} {i : Nat} {f : Cmd → Cmd} (j : Nat)
    (hf : ∀ c, (f c).name = c.name) :
    (getCmd (modifyCmd st i f) j).name = (getCmd st j).name := by
  by_cases hlt : i < st.length
  · by_cases hij : i = j
    · subst hij
      rw [getCmd_modify_self hlt, hf]
    · rw [getCmd_modify_ne hij]
  · rw [getCmd_modify_oor j (le_of_not_lt hlt)]

theorem setSubGroup_name (st : List Cmd) (cid : Nat) (x : Option Nat) (j : Nat) :
    (getCmd (setSubGroup st cid x) j).name = (getCmd st j).name :=
  getCmd_modify_name j (fun _ => rfl)

theorem getCmd_setParent_name (st : List Cmd) (i : Nat) (x : Option Nat) (j : Nat) :
    (getCmd (modifyCmd st i (fun cm => { cm with parent := x })) j).name =
      (getCmd st j).name :=
  getCmd_modify_name j (fun _ => rfl)

theorem getCmd_addChild_name (st : List Cmd) (i c : Nat) (j : Nat) :
    (getCmd (modifyCmd st i (fun gm => { gm with children := gm.children ++ [c] })) j).name =
      (getCmd st j).name :=
  getCmd_modify_name j (fun _ => rfl)

theorem attachChild_name (st : List Cmd) (g c : Nat) (j : Nat) :
    (getCmd (attachChild st g c) j).name = (getCmd st j).name := by
  unfold attachChild
  dsimp only
  rw [getCmd_addChild_name, getCmd_setParent_name]

/-- Name-preserving store updates do not change flat-registry removal. -/
theorem removeTop_congr {st st2 : List Cmd}
    (h : ∀ j, (getCmd st2 j).name = (getCmd st j).name) :
    ∀ (l : List Nat) (nm : String), removeTop st2 l nm = removeTop st l nm
  | [], _ => rfl
  | i :: rest, nm => by
    rw [removeTop, removeTop, h i, removeTop_congr h rest nm]

theorem setSubGroup_length (st : List Cmd) (cid : Nat) (x : Option Nat) :
    (setSubGroup st cid x).length = st.length :=
  modifyCmd_length st cid _

/-- After the ADD handler's store mutation, the command's `_Subcommand`
records the group. -/
theorem subGroupRef_attach (st : List Cmd) (g cid : Nat)
    (hlt : cid < st.length) (hsub : (getCmd st cid).sub.isSome) :
    subGroupRef (attachChild (setSubGroup st cid (some g)) g cid) cid = some g := by
  obtain ⟨sb, hsb⟩ := Option.isSome_iff_exists.mp hsub
  have hlt1 : cid < (setSubGroup st cid (some g)).length := by
    rwa [setSubGroup_length]
  have h1 : (getCmd (setSubGroup st cid (some g)) cid).sub =
      some { groupName := sb.groupName, group := some g } := by
    rw [setSubGroup, getCmd_modify_self hlt, hsb]
    rfl
  unfold attachChild
  dsimp only
  by_cases hg : g = cid
  · subst hg
    have hlt2 : g < (modifyCmd (setSubGroup st g (some g)) g
        (fun cm => { cm with parent := some g })).length := by
      simpa [modifyCmd_length, setSubGroup_length] using hlt
    rw [subGroupRef, getCmd_modify_self hlt2, getCmd_modify_self hlt1]
    simp [h1]
  · rw [subGroupRef, getCmd_modify_ne hg, getCmd_modify_self hlt1]
    simp [h1]

/-- After the ADD handler's store mutation, the command's parent is the
group. -/
theorem parent_attach (st : List Cmd) (g cid : Nat) (hlt : cid < st.length) :
    (getCmd (attachChild (setSubGroup st cid (some g)) g cid) cid).parent = some g := by
  have hlt1 : cid < (setSubGroup st cid (some g)).length := by
    rwa [setSubGroup_length]
  unfold attachChild
  dsimp only
  by_cases hg : g = cid
  · subst hg
    have hlt2 : g < (modifyCmd (setSubGroup st g (some g)) g
        (fun cm => { cm with parent := some g })).length := by
      simpa [modifyCmd_length, setSubGroup_length] using hlt
    rw [getCmd_modify_self hlt2, getCmd_modify_self hlt1]
  · rw [getCmd_modify_ne hg, getCmd_modify_self hlt1]

/-- After the ADD handler's store mutation, the command is among the
group's children. -/
theorem children_attach (st : List Cmd) (g cid : Nat) (hg : g < st.length) :
    cid ∈ (getCmd (attachChild (setSubGroup st cid (some g)) g cid) g).children := by
  have hg1 : g < (modifyCmd (setSubGroup st cid (some g)) cid
      (fun cm => { cm with parent := some g })).length := by
    simpa [modifyCmd_length, setSubGroup_length] using hg
  unfold attachChild
  dsimp only
  rw [getCmd_modify_self hg1]
  simp

theorem attachSet_name (st : List Cmd) (g cid : Nat) (j : Nat) :
    (getCmd (attachChild (setSubGroup st cid (some g)) g cid) j).name =
      (getCmd st j).name := by
  rw [attachChild_name, setSubGroup_name]

/-! ## Helper lemmas: an entry leaves `_not_found` only when its
declaration is attached -/

/-- If one pass step changed `_not_found` at all, the step attached its
declaration: the `_Subcommand` records a group afterwards. -/
theorem processDecl_remove_attach {cfg : Config} {cog : String} {cid : Nat} {s : BotState}
    (hlt : cid < s.store.length) (hsub : (getCmd s.store cid).sub.isSome)
    (hch : (processDecl cfg cog cid s).1.notFound ≠ s.notFound) :
    (subGroupRef (processDecl cfg cog cid s).1.store cid).isSome := by
  cases hf : findGroup cfg s cid with
  | error e =>
    simp only [processDecl, hf] at hch
    exact absurd rfl hch
  | ok og =>
    cases og with
    | none =>
      simp only [processDecl, hf] at hch
      exact absurd rfl hch
    | some g =>
      by_cases happ : isAppSide (getCmd s.store cid).ty
      · cases hadd : handleAppAdd s cid g with
        | error e =>
          simp only [processDecl, hf, happ, if_true, hadd] at hch
          exact absurd rfl hch
        | ok s1 =>
          simp only [processDecl, hf, happ, if_true, hadd]
          obtain ⟨_, _, _, hst⟩ := handleAppAdd_dicts hadd
          rw [hst, subGroupRef_attach s.store g cid hlt hsub]
          rfl
      · rw [Bool.not_eq_true] at happ
        cases hadd : handleExtAdd s cid g with
        | error e =>
          simp only [processDecl, hf, happ, Bool.false_eq_true, if_false, hadd] at hch
          exact absurd rfl hch
        | ok s1 =>
          simp only [processDecl, hf, happ, Bool.false_eq_true, if_false, hadd]
          obtain ⟨_, _, _, hst⟩ := handleExtAdd_dicts hadd
          rw [hst, subGroupRef_attach s.store g cid hlt hsub]
          rfl

/-- Plugin unload drops the plugin's bucket from both collections. -/
theorem cogRemove_buckets (s : BotState) (n : String) (hwf : StateWF s) :
    dictGet (cogRemove s n).mgrCommands n = none ∧
      dictGet (cogRemove s n).notFound n = none := by
  obtain ⟨hm, hn⟩ := cogRemove_dicts s n
  rw [hm, hn]
  exact ⟨dictGet_dictDel_self _ _ hwf.1.1, dictGet_dictDel_self _ _ hwf.2.1⟩

/-! ## Helper lemmas: the pass is a no-op when nothing resolves -/

theorem dictGet_of_mem_nodup {β : Type} {d : List (String × β)} {k : String} {v : β}
    (hn : (dictKeys d).Nodup) (h : (k, v) ∈ d) : dictGet d k = some v := by
  induction d with
  | nil => simp at h
  | cons p t ih =>
    simp only [dictKeys, List.map_cons, List.nodup_cons] at hn
    rcases List.mem_cons.mp h with h1 | h1
    · rw [← h1]
      simp [dictGet]
    · by_cases hp : p.1 = k
      · exfalso
        apply hn.1
        rw [hp, show (List.map Prod.fst t : List String) = dictKeys t from rfl,
          mem_dictKeys_iff]
        exact ⟨v, h1⟩
      · simp only [dictGet, beq_iff_eq, hp, if_false]
        exact ih hn.2 h1

theorem passBucket_noop {cfg : Config} {cog : String} {s : BotState} :
    ∀ (l : List (String × Nat)),
    (∀ p ∈ l, findGroup cfg s p.2 = .ok none) →
    passBucket cfg cog l s = (s, none)
  | [], _ => rfl
  | (nm, cid) :: rest, h => by
    rw [passBucket]
    have h1 : processDecl cfg cog cid s = (s, none) := by
      unfold processDecl
      rw [h (nm, cid) (by simp)]
    rw [h1]
    exact passBucket_noop rest (fun p hp => h p (List.mem_cons_of_mem _ hp))

theorem passCogs_noop {cfg : Config} {s : BotState} :
    ∀ (l : Registry),
    (∀ q ∈ l, q.2 ≠ [] ∧ dictGet s.notFound q.1 = some q.2 ∧
      ∀ p ∈ q.2, findGroup cfg s p.2 = .ok none) →
    passCogs cfg l s = (s, none)
  | [], _ => rfl
  | (cog, bucket) :: rest, h => by
    rw [passCogs]
    obtain ⟨hne, hget, hfind⟩ := h (cog, bucket) (by simp)
    rw [passBucket_noop bucket hfind]
    have hempty : (dictGetD s.notFound cog []).isEmpty = false := by
      rw [dictGetD, hget]
      cases bucket with
      | nil => exact absurd rfl hne
      | cons q t => rfl
    simp only [hempty, Bool.false_eq_true, if_false]
    exact passCogs_noop rest (fun q hq => h q (List.mem_cons_of_mem _ hq))

/-- When no still-unresolved declaration can find its group, the
resolution pass raises nothing and leaves the whole state unchanged. -/
theorem handleCommands_noop {cfg : Config} {s : BotState}
    (hwf : (dictKeys s.notFound).Nodup)
    (hne : ∀ q ∈ s.notFound, q.2 ≠ [])
    (hfind : ∀ q ∈ s.notFound, ∀ p ∈ q.2, findGroup cfg s p.2 = .ok none) :
    handleCommands cfg s = (s, none) := by
  unfold handleCommands
  exact passCogs_noop s.notFound
    (fun q hq => ⟨hne q hq, by
      obtain ⟨k, v⟩ := q
      exact dictGet_of_mem_nodup hwf hq, hfind q hq⟩)

/-! ## Helper lemmas: the restricted candidate pool is universe-compatible -/

/-- Membership in the universe-filtered pool pins the group's class. -/
theorem getGroups_compat {s : BotState} {t : CmdTy} {g : Nat}
    (h : g ∈ getGroups s t true) :
    (if isAppSide t then isAppGroup (getCmd s.store g).ty
      else isExtGroup (getCmd s.store g).ty) = true := by
  unfold getGroups at h
  simp only [Bool.not_true, Bool.false_eq_true, if_false] at h
  by_cases happ : isAppSide t
  · rw [if_pos happ] at h
    rw [if_pos happ]
    exact (List.mem_filter.mp h).2
  · rw [if_neg happ] at h
    rw [if_neg happ]
    exact (List.mem_filter.mp h).2

/-- With `check_group_type=False` (the default), a successful `__find_group`
returns a group drawn from the universe-compatible pool whose qualified
name is exactly the declaration's target. -/
theorem findGroup_some_compat {cfg : Config} {s : BotState} {cid g : Nat}
    (hcfg : cfg.checkGroupType = false)
    (h : findGroup cfg s cid = .ok (some g)) :
    g ∈ getGroups s (getCmd s.store cid).ty true ∧
      qualName s.store s.store.length g = subGroupName s.store cid ∧
      (if isAppSide (getCmd s.store cid).ty then isAppGroup (getCmd s.store g).ty
        else isExtGroup (getCmd s.store g).ty) = true := by
  unfold findGroup at h
  rw [hcfg] at h
  simp only [Bool.not_false] at h
  cases hfind : (getGroups s (getCmd s.store cid).ty true).find?
      (fun i => qualName s.store s.store.length i == subGroupName s.store cid) with
  | none =>
    rw [hfind] at h
    exact absurd h (by simp)
  | some g2 =>
    rw [hfind] at h
    dsimp only at h
    have hg : g2 = g := by
      split_ifs at h
      simp_all
    subst hg
    have hp := List.find?_some hfind
    refine ⟨List.mem_of_find?_eq_some hfind, ?_, ?_⟩
    · exact eq_of_beq hp
    · exact getGroups_compat (List.mem_of_find?_eq_some hfind)

/-! ## Helper lemmas: the four load/unload steps of the order-independence
and unload scenarios, each computed to an explicit state -/

set_option maxHeartbeats 1000000 in
theorem step_loadCmd_first (cn gn na : String) (h1 : cn ≠ gn) :
    runOp cfgD { store := pairStore cn gn } (.load (cmdCog na)) = e6Mid cn gn na := by
  have hcg : (cn == gn) = false := beq_eq_false_iff_ne.mpr h1
  have hgc : (gn == cn) = false := beq_eq_false_iff_ne.mpr (Ne.symm h1)
  simp only [runOp, cogAdd, cogRemove, originalAddCog, originalRemoveCog, recordPending,
    detachAll, handleCommands, passCogs, passBucket, processDecl, findGroup, getGroups,
    walkList, walkOne, qualName, getCmd, subGroupName, subGroupRef, pairStore, cmdCog,
    groupCog, cfgD, handleExtAdd, handleAppAdd, handleExtRemove, handleAppRemove,
    attachChild, detachChildByName, setSubGroup, modifyCmd, removeTop, delEntry,
    dictSet2, dictSet, dictDel, dictGet, dictGetD, lookup2, defaultCmd, isAppSide,
    isAppCommand, isAppGroup, isExtGroup, isHybridGroup, isHybridCmd, isExtCommand,
    beq_self_eq_true, List.filter, List.map, List.flatten, List.foldl, List.find?,
    List.append, List.isEmpty, Option.getD, Option.isSome, Option.map, Option.bind,
    Option.isNone, List.set, Bool.not_true, Bool.not_false, if_true, if_false,
    List.length, List.get?, Bool.false_eq_true, Bool.true_eq_false, ite_false,
    ite_true, Bool.or_true, Bool.or_false, Bool.false_or, Bool.true_or, Bool.and_true,
    Bool.and_false, Bool.false_and, Bool.true_and, List.nil_append, List.append_nil,
    List.cons_append, hcg, hgc, e6Mid]

set_option maxHeartbeats 1000000 in
theorem step_loadGroup_second (cn gn na nb : String) (h1 : cn ≠ gn) (h2 : na ≠ nb) :
    runOp cfgD (e6Mid cn gn na) (.load (groupCog nb)) = e6Final cn gn na nb := by
  have hcg : (cn == gn) = false := beq_eq_false_iff_ne.mpr h1
  have hgc : (gn == cn) = false := beq_eq_false_iff_ne.mpr (Ne.symm h1)
  have hab : (na == nb) = false := beq_eq_false_iff_ne.mpr h2
  have hba : (nb == na) = false := beq_eq_false_iff_ne.mpr (Ne.symm h2)
  simp only [runOp, cogAdd, cogRemove, originalAddCog, originalRemoveCog, recordPending,
    detachAll, handleCommands, passCogs, passBucket, processDecl, findGroup, getGroups,
    walkList, walkOne, qualName, getCmd, subGroupName, subGroupRef, pairStore, cmdCog,
    groupCog, cfgD, handleExtAdd, handleAppAdd, handleExtRemove, handleAppRemove,
    attachChild, detachChildByName, setSubGroup, modifyCmd, removeTop, delEntry,
    dictSet2, dictSet, dictDel, dictGet, dictGetD, lookup2, defaultCmd, isAppSide,
    isAppCommand, isAppGroup, isExtGroup, isHybridGroup, isHybridCmd, isExtCommand,
    beq_self_eq_true, List.filter, List.map, List.flatten, List.foldl, List.find?,
    List.append, List.isEmpty, Option.getD, Option.isSome, Option.map, Option.bind,
    Option.isNone, List.set, Bool.not_true, Bool.not_false, if_true, if_false,
    List.length, List.get?, Bool.false_eq_true, Bool.true_eq_false, ite_false,
    ite_true, Bool.or_true, Bool.or_false, Bool.false_or, Bool.true_or, Bool.and_true,
    Bool.and_false, Bool.false_and, Bool.true_and, List.nil_append, List.append_nil,
    List.cons_append, hcg, hgc, hab, hba, e6Mid, e6Final, attachedStore]

set_option maxHeartbeats 1000000 in
theorem step_loadGroup_first (cn gn nb : String) (h1 : cn ≠ gn) :
    runOp cfgD { store := pairStore cn gn } (.load (groupCog nb)) = e6MidB cn gn nb := by
  have hcg : (cn == gn) = false := beq_eq_false_iff_ne.mpr h1
  have hgc : (gn == cn) = false := beq_eq_false_iff_ne.mpr (Ne.symm h1)
  simp only [runOp, cogAdd, cogRemove, originalAddCog, originalRemoveCog, recordPending,
    detachAll, handleCommands, passCogs, passBucket, processDecl, findGroup, getGroups,
    walkList, walkOne, qualName, getCmd, subGroupName, subGroupRef, pairStore, cmdCog,
    groupCog, cfgD, handleExtAdd, handleAppAdd, handleExtRemove, handleAppRemove,
    attachChild, detachChildByName, setSubGroup, modifyCmd, removeTop, delEntry,
    dictSet2, dictSet, dictDel, dictGet, dictGetD, lookup2, defaultCmd, isAppSide,
    isAppCommand, isAppGroup, isExtGroup, isHybridGroup, isHybridCmd, isExtCommand,
    beq_self_eq_true, List.filter, List.map, List.flatten, List.foldl, List.find?,
    List.append, List.isEmpty, Option.getD, Option.isSome, Option.map, Option.bind,
    Option.isNone, List.set, Bool.not_true, Bool.not_false, if_true, if_false,
    List.length, List.get?, Bool.false_eq_true, Bool.true_eq_false, ite_false,
    ite_true, Bool.or_true, Bool.or_false, Bool.false_or, Bool.true_or, Bool.and_true,
    Bool.and_false, Bool.false_and, Bool.true_and, List.nil_append, List.append_nil,
    List.cons_append, hcg, hgc, e6MidB]

set_option maxHeartbeats 1000000 in
theorem step_loadCmd_second (cn gn na nb : String) (h1 : cn ≠ gn) (h2 : na ≠ nb) :
    runOp cfgD (e6MidB cn gn nb) (.load (cmdCog na)) = e6FinalB cn gn na nb := by
  have hcg : (cn == gn) = false := beq_eq_false_iff_ne.mpr h1
  have hgc : (gn == cn) = false := beq_eq_false_iff_ne.mpr (Ne.symm h1)
  have hab : (na == nb) = false := beq_eq_false_iff_ne.mpr h2
  have hba : (nb == na) = false := beq_eq_false_iff_ne.mpr (Ne.symm h2)
  simp only [runOp, cogAdd, cogRemove, originalAddCog, originalRemoveCog, recordPending,
    detachAll, handleCommands, passCogs, passBucket, processDecl, findGroup, getGroups,
    walkList, walkOne, qualName, getCmd, subGroupName, subGroupRef, pairStore, cmdCog,
    groupCog, cfgD, handleExtAdd, handleAppAdd, handleExtRemove, handleAppRemove,
    attachChild, detachChildByName, setSubGroup, modifyCmd, removeTop, delEntry,
    dictSet2, dictSet, dictDel, dictGet, dictGetD, lookup2, defaultCmd, isAppSide,
    isAppCommand, isAppGroup, isExtGroup, isHybridGroup, isHybridCmd, isExtCommand,
    beq_self_eq_true, List.filter, List.map, List.flatten, List.foldl, List.find?,
    List.append, List.isEmpty, Option.getD, Option.isSome, Option.map, Option.bind,
    Option.isNone, List.set, Bool.not_true, Bool.not_false, if_true, if_false,
    List.length, List.get?, Bool.false_eq_true, Bool.true_eq_false, ite_false,
    ite_true, Bool.or_true, Bool.or_false, Bool.false_or, Bool.true_or, Bool.and_true,
    Bool.and_false, Bool.false_and, Bool.true_and, List.nil_append, List.append_nil,
    List.cons_append, hcg, hgc, hab, hba, e6MidB, e6FinalB, attachedStore]

set_option maxHeartbeats 1000000 in
theorem step_unloadCmd (cn gn na nb : String) (h1 : cn ≠ gn) (h2 : na ≠ nb) :
    runOp cfgD (e6FinalB cn gn na nb) (.unload na) = e8Final cn gn nb := by
  have hcg : (cn == gn) = false := beq_eq_false_iff_ne.mpr h1
  have hgc : (gn == cn) = false := beq_eq_false_iff_ne.mpr (Ne.symm h1)
  have hab : (na == nb) = false := beq_eq_false_iff_ne.mpr h2
  have hba : (nb == na) = false := beq_eq_false_iff_ne.mpr (Ne.symm h2)
  simp only [runOp, cogAdd, cogRemove, originalAddCog, originalRemoveCog, recordPending,
    detachAll, handleCommands, passCogs, passBucket, processDecl, findGroup, getGroups,
    walkList, walkOne, qualName, getCmd, subGroupName, subGroupRef, pairStore, cmdCog,
    groupCog, cfgD, handleExtAdd, handleAppAdd, handleExtRemove, handleAppRemove,
    attachChild, detachChildByName, setSubGroup, modifyCmd, removeTop, delEntry,
    dictSet2, dictSet, dictDel, dictGet, dictGetD, lookup2, defaultCmd, isAppSide,
    isAppCommand, isAppGroup, isExtGroup, isHybridGroup, isHybridCmd, isExtCommand,
    beq_self_eq_true, List.filter, List.map, List.flatten, List.foldl, List.find?,
    List.append, List.isEmpty, Option.getD, Option.isSome, Option.map, Option.bind,
    Option.isNone, List.set, Bool.not_true, Bool.not_false, if_true, if_false,
    List.length, List.get?, Bool.false_eq_true, Bool.true_eq_false, ite_false,
    ite_true, Bool.or_true, Bool.or_false, Bool.false_or, Bool.true_or, Bool.and_true,
    Bool.and_false, Bool.false_and, Bool.true_and, List.nil_append, List.append_nil,
    List.cons_append, hcg, hgc, hab, hba, e6FinalB, e8Final, attachedStore]

/-! ## Claims C6 and C8 -/

/-- C6: for plugins A (declaring a prefix subcommand targeting group `gn`)
and B (declaring prefix group `gn`), loading A then B and loading B then A
converge to the same final attachment: both orders produce the same store,
host registries and manager dicts (only the host's cog-table retains the
load order), with the command attached under the group — because every
resolution pass ranges over the still-unresolved declarations of all
plugins, not only the most recently loaded one. -/
theorem c6_order_independence (cn gn na nb : String) (h1 : cn ≠ gn) (h2 : na ≠ nb) :
    runCmdFirst cn gn na nb = e6Final cn gn na nb ∧
    runGroupFirst cn gn na nb = e6FinalB cn gn na nb ∧
    (runCmdFirst cn gn na nb).store = (runGroupFirst cn gn na nb).store ∧
    (runCmdFirst cn gn na nb).botTop = (runGroupFirst cn gn na nb).botTop ∧
    (runCmdFirst cn gn na nb).treeTop = (runGroupFirst cn gn na nb).treeTop ∧
    (runCmdFirst cn gn na nb).mgrCommands = (runGroupFirst cn gn na nb).mgrCommands ∧
    (runCmdFirst cn gn na nb).notFound = (runGroupFirst cn gn na nb).notFound ∧
    (getCmd (runCmdFirst cn gn na nb).store 0).parent = some 1 ∧
    subGroupRef (runCmdFirst cn gn na nb).store 0 = some 1 ∧
    (runCmdFirst cn gn na nb).notFound = [] := by
  have hA : runCmdFirst cn gn na nb = e6Final cn gn na nb := by
    simp only [runCmdFirst, runOps]
    rw [step_loadCmd_first cn gn na h1, step_loadGroup_second cn gn na nb h1 h2]
  have hB : runGroupFirst cn gn na nb = e6FinalB cn gn na nb := by
    simp only [runGroupFirst, runOps]
    rw [step_loadGroup_first cn gn nb h1, step_loadCmd_second cn gn na nb h1 h2]
  rw [hA, hB]
  exact ⟨rfl, rfl, rfl, rfl, rfl, rfl, rfl, rfl, rfl, rfl⟩

/-- Witness for C6 at concrete names. -/
theorem c6_witness :
    runCmdFirst "c" "g" "A" "B" = e6Final "c" "g" "A" "B" ∧
    runGroupFirst "c" "g" "A" "B" = e6FinalB "c" "g" "A" "B" ∧
    (runCmdFirst "c" "g" "A" "B").store = (runGroupFirst "c" "g" "A" "B").store ∧
    (runCmdFirst "c" "g" "A" "B").botTop = (runGroupFirst "c" "g" "A" "B").botTop ∧
    (runCmdFirst "c" "g" "A" "B").treeTop = (runGroupFirst "c" "g" "A" "B").treeTop ∧
    (runCmdFirst "c" "g" "A" "B").mgrCommands = (runGroupFirst "c" "g" "A" "B").mgrCommands ∧
    (runCmdFirst "c" "g" "A" "B").notFound = (runGroupFirst "c" "g" "A" "B").notFound ∧
    (getCmd (runCmdFirst "c" "g" "A" "B").store 0).parent = some 1 ∧
    subGroupRef (runCmdFirst "c" "g" "A" "B").store 0 = some 1 ∧
    (runCmdFirst "c" "g" "A" "B").notFound = [] :=
  c6_order_independence "c" "g" "A" "B" (by decide) (by decide)

/-- C8: after its plugin is unloaded, a command that a resolution pass had
successfully attached has no parent again, the group has lost the child,
and the plugin's entries are gone from both the still-unresolved and the
all-known collections; and detaching a never-attached declaration is a
silent no-op (the REMOVE handlers return the state unchanged). -/
theorem c8_unload_inverse (cn gn na nb : String) (h1 : cn ≠ gn) (h2 : na ≠ nb) :
    (runC8 cn gn na nb = e8Final cn gn nb ∧
     (getCmd (runGroupFirst cn gn na nb).store 0).parent = some 1 ∧
     (getCmd (runC8 cn gn na nb).store 0).parent = none ∧
     subGroupRef (runC8 cn gn na nb).store 0 = none ∧
     (getCmd (runC8 cn gn na nb).store 1).children = [] ∧
     dictGet (runC8 cn gn na nb).mgrCommands na = none ∧
     dictGet (runC8 cn gn na nb).notFound na = none) ∧
    (∀ (s : BotState) (cid : Nat), subGroupRef s.store cid = none →
      handleExtRemove s cid = s ∧ handleAppRemove s cid = s) := by
  have hB : runGroupFirst cn gn na nb = e6FinalB cn gn na nb := by
    simp only [runGroupFirst, runOps]
    rw [step_loadGroup_first cn gn nb h1, step_loadCmd_second cn gn na nb h1 h2]
  have hC : runC8 cn gn na nb = e8Final cn gn nb := by
    simp only [runC8, runOps]
    rw [step_loadGroup_first cn gn nb h1, step_loadCmd_second cn gn na nb h1 h2,
      step_unloadCmd cn gn na nb h1 h2]
  refine ⟨⟨hC, ?_, ?_, ?_, ?_, ?_, ?_⟩, ?_⟩
  · rw [hB]
    rfl
  · rw [hC]
    rfl
  · rw [hC]
    rfl
  · rw [hC]
    rfl
  · rw [hC]
    rfl
  · rw [hC]
    rfl
  · intro s cid h
    constructor
    · unfold handleExtRemove
      rw [h]
    · unfold handleAppRemove handleExtRemove
      rw [h]

/-- Witness for C8 at concrete names. -/
theorem c8_witness :
    (runC8 "c" "g" "A" "B" = e8Final "c" "g" "B" ∧
     (getCmd (runGroupFirst "c" "g" "A" "B").store 0).parent = some 1 ∧
     (getCmd (runC8 "c" "g" "A" "B").store 0).parent = none ∧
     subGroupRef (runC8 "c" "g" "A" "B").store 0 = none ∧
     (getCmd (runC8 "c" "g" "A" "B").store 1).children = [] ∧
     dictGet (runC8 "c" "g" "A" "B").mgrCommands "A" = none ∧
     dictGet (runC8 "c" "g" "A" "B").notFound "A" = none) ∧
    (∀ (s : BotState) (cid : Nat), subGroupRef s.store cid = none →
      handleExtRemove s cid = s ∧ handleAppRemove s cid = s) :=
  c8_unload_inverse "c" "g" "A" "B" (by decide) (by decide)

/-! ## Claim C1 -/

/-- C1 (counterexample): with two unresolved entries (in plugins `A` and
`B`), the raised message is exactly the first entry's diagnostic; it does
not mention the second entry's command `qq`, its target `gq`, or its
plugin `B`, so the error does not contain one message per unresolved
entry. -/
theorem c1_counterexample :
    lookup2 c1State.notFound "A" "x" = some 0 ∧
    lookup2 c1State.notFound "B" "qq" = some 1 ∧
    subGroupRef c1State.store 0 = none ∧
    subGroupRef c1State.store 1 = none ∧
    raiseForRemaining c1State = some c1Msg ∧
    ¬ strSub "qq" c1Msg ∧
    ¬ strSub "gq" c1Msg ∧
    ¬ strSub "B" c1Msg := by
  decide

/-- C1 (amended): when at least one declaration remains unresolved,
`raise_for_remaining_commands` raises a single fatal error carrying the
diagnostic of the first unresolved entry in iteration order — identifying
that entry's plugin, command and target group name — rather than one
message per unresolved entry. -/
theorem c1_first_entry_report (s : BotState) (cog nm : String) (cid : Nat)
    (h : firstUnresolved s = some (cog, nm, cid)) :
    raiseForRemaining s = some (reportMsg s cog nm cid) ∧
    strSub (subGroupName s.store cid) (reportMsg s cog nm cid) ∧
    strSub nm (reportMsg s cog nm cid) ∧
    strSub cog (reportMsg s cog nm cid) := by
  refine ⟨?_, ?_, ?_, ?_⟩
  · unfold raiseForRemaining
    rw [h]
    rfl
  · unfold reportMsg
    exact strSub_append_left _ (strSub_append_left _ (strSub_append_left _
      (strSub_append_left _ (strSub_append_left _ (strSub_append_left _
      (strSub_append_left _ (strSub_append_left _
      (strSub_append_right _ (strSub_self _)))))))))
  · unfold reportMsg
    exact strSub_append_left _ (strSub_append_left _ (strSub_append_left _
      (strSub_append_left _ (strSub_append_right _ (strSub_self _)))))
  · unfold reportMsg
    exact strSub_append_left _ (strSub_append_left _
      (strSub_append_right _ (strSub_self _)))

/-- Witness for C1 at the reachable state `c1State`. -/
theorem c1_witness :
    raiseForRemaining c1State = some (reportMsg c1State "A" "x" 0) ∧
    strSub (subGroupName c1State.store 0) (reportMsg c1State "A" "x" 0) ∧
    strSub "x" (reportMsg c1State "A" "x" 0) ∧
    strSub "A" (reportMsg c1State "A" "x" 0) :=
  c1_first_entry_report c1State "A" "x" 0 (by decide)

/-! ## Claim C2 -/

set_option maxRecDepth 10000 in
/-- C2 (counterexample): in `c2State` the unresolved declaration is the
command `ab` targeting group `xy`, the candidates are `xz` and `ac`, and
`xz` is strictly the closest match to the target group name `xy` — yet the
diagnostic suggests `ac` (the closest match to the command name `ab`) and
does not contain `xz`. -/
theorem c2_counterexample :
    subGroupName c2State.store 2 = "xy" ∧
    candNames c2State 2 = ["xz", "ac"] ∧
    scoreLe "xy" "ac" "xz" ∧
    ¬ scoreLe "xy" "xz" "ac" ∧
    raiseForRemaining c2State = some c2Msg ∧
    strSub "ac" c2Msg ∧
    ¬ strSub "xz" c2Msg := by
  decide

set_option maxRecDepth 10000 in
/-- C2 (amended): the "did you mean" suggestion is an existing candidate
group name with the maximal similarity ratio to the registry key — the
command's short name — not to the declaration's target group name; the
spec's particular example (only group `user` registered, command
`whenjoin` targeting `user utils`) still suggests `user`, it being the
only candidate. -/
theorem c2_suggestion_spec (s : BotState) (cog nm : String) (cid : Nat)
    (h : firstUnresolved s = some (cog, nm, cid)) (hc : candNames s cid ≠ []) :
    (∃ m, getCloseMatches nm (candNames s cid) = some m ∧ m ∈ candNames s cid ∧
      (∀ x ∈ candNames s cid, scoreLe nm x m) ∧
      raiseForRemaining s = some (reportMsg s cog nm cid) ∧
      strSub m (reportMsg s cog nm cid)) ∧
    raiseForRemaining exState = some (reportMsg exState "Q" "whenjoin" 1) ∧
    strSub "user" (reportMsg exState "Q" "whenjoin" 1) := by
  obtain ⟨m, hm, hmem, hmax⟩ := getCloseMatches_spec nm (candNames s cid) hc
  refine ⟨⟨m, hm, hmem, hmax, ?_, ?_⟩, ?_, ?_⟩
  · unfold raiseForRemaining
    rw [h]
    rfl
  · unfold reportMsg
    rw [hm]
    exact strSub_append_right _ (strSub_append_left _
      (strSub_append_right _ (strSub_self _)))
  · decide
  · decide

set_option maxRecDepth 10000 in
/-- Witness for C2 at the reachable state `c2State`. -/
theorem c2_witness :
    (∃ m, getCloseMatches "ab" (candNames c2State 2) = some m ∧
      m ∈ candNames c2State 2 ∧
      (∀ x ∈ candNames c2State 2, scoreLe "ab" x m) ∧
      raiseForRemaining c2State = some (reportMsg c2State "CogB" "ab" 2) ∧
      strSub m (reportMsg c2State "CogB" "ab" 2)) ∧
    raiseForRemaining exState = some (reportMsg exState "Q" "whenjoin" 1) ∧
    strSub "user" (reportMsg exState "Q" "whenjoin" 1) :=
  c2_suggestion_spec c2State "CogB" "ab" 2 (by decide) (by decide)

/-! ## Claim C3 -/

/-- C3 (counterexample): with `check_group_type=True`, the candidate pool
passed to the qualified-name search is the permissive both-universes pool
(`__get_groups` is called with `check_command_type = not check_group_type`),
so the slash declaration targeting `g` matches the same-named prefix group
— and the load raises a `TypeError` instead of skipping it. -/
theorem c3_counterexample :
    cfgT.checkGroupType = true ∧
    subGroupName c3Res.1.store 1 = "g" ∧
    (getCmd c3Res.1.store 1).ty = CmdTy.sCmd ∧
    (getCmd c3Res.1.store 0).ty = CmdTy.pGroup ∧
    qualName c3Res.1.store c3Res.1.store.length 0 = "g" ∧
    getGroups c3Res.1 CmdTy.sCmd false = [0] ∧
    c3Res.2 = some "Cannot add AppCommand to a Group." ∧
    lookup2 c3Res.1.notFound "C2" "c" = some 1 := by
  decide

/-- C3 (amended): it is with `check_group_type=False` — the default — that
the resolution search draws candidates only from the pool compatible with
the declaration's universe: a successful `__find_group` then returns a
group with the exact target qualified name that is a slash group for slash
declarations and a prefix/hybrid group otherwise, so a same-named group of
the other universe is never matched.  (With the flag enabled the pool is
permissive and an incompatible match raises; see the counterexample.) -/
theorem c3_restricted_pool (cfg : Config) (s : BotState) (cid g : Nat)
    (hcfg : cfg.checkGroupType = false)
    (h : findGroup cfg s cid = .ok (some g)) :
    qualName s.store s.store.length g = subGroupName s.store cid ∧
    (isAppSide (getCmd s.store cid).ty = true →
      isAppGroup (getCmd s.store g).ty = true) ∧
    (isAppSide (getCmd s.store cid).ty = false →
      isExtGroup (getCmd s.store g).ty = true) := by
  obtain ⟨hmem, hq, hcompat⟩ := findGroup_some_compat hcfg h
  refine ⟨hq, ?_, ?_⟩
  · intro happ
    rwa [if_pos happ] at hcompat
  · intro happ
    rw [happ] at hcompat
    simpa using hcompat

/-- Witness for C3 at the reachable state `wState`. -/
theorem c3_witness :
    qualName wState.store wState.store.length 1 = subGroupName wState.store 0 ∧
    (isAppSide (getCmd wState.store 0).ty = true →
      isAppGroup (getCmd wState.store 1).ty = true) ∧
    (isAppSide (getCmd wState.store 0).ty = false →
      isExtGroup (getCmd wState.store 1).ty = true) :=
  c3_restricted_pool cfgD wState 0 1 rfl (by decide)

/-! ## Claim C4 -/

theorem handleAppAdd_tops {s : BotState} {cid gid : Nat} {s1 : BotState}
    (h : handleAppAdd s cid gid = .ok s1) :
    s1.treeTop =
      removeTop (setSubGroup s.store cid (some gid)) s.treeTop (getCmd s.store cid).name ∧
    s1.botTop = s.botTop := by
  unfold handleAppAdd at h
  cases hp : (getCmd s.store cid).parent with
  | some p => simp [hp] at h
  | none =>
    simp only [hp] at h
    cases h
    exact ⟨rfl, rfl⟩

theorem handleExtAdd_tops {s : BotState} {cid gid : Nat} {s1 : BotState}
    (h : handleExtAdd s cid gid = .ok s1) :
    s1.botTop =
      removeTop (setSubGroup s.store cid (some gid)) s.botTop (getCmd s.store cid).name ∧
    s1.treeTop = s.treeTop := by
  unfold handleExtAdd at h
  cases hp : (getCmd s.store cid).parent with
  | some p => simp [hp] at h
  | none =>
    simp only [hp] at h
    cases h
    exact ⟨rfl, rfl⟩

theorem handleAppAdd_ok_of_no_parent {s : BotState} {cid : Nat} (gid : Nat)
    (hp : (getCmd s.store cid).parent = none) :
    ∃ s1, handleAppAdd s cid gid = .ok s1 := by
  unfold handleAppAdd
  dsimp only
  rw [hp]
  exact ⟨_, rfl⟩

theorem handleExtAdd_ok_of_no_parent {s : BotState} {cid : Nat} (gid : Nat)
    (hp : (getCmd s.store cid).parent = none) :
    ∃ s1, handleExtAdd s cid gid = .ok s1 := by
  unfold handleExtAdd
  dsimp only
  rw [hp]
  exact ⟨_, rfl⟩

theorem handleAppAdd_error_of_parent {s : BotState} {cid : Nat} (gid : Nat) {p : Nat}
    (hp : (getCmd s.store cid).parent = some p) :
    ∃ e, handleAppAdd s cid gid = .error e := by
  unfold handleAppAdd
  dsimp only
  rw [hp]
  exact ⟨_, rfl⟩

theorem handleExtAdd_error_of_parent {s : BotState} {cid : Nat} (gid : Nat) {p : Nat}
    (hp : (getCmd s.store cid).parent = some p) :
    ∃ e, handleExtAdd s cid gid = .error e := by
  unfold handleExtAdd
  dsimp only
  rw [hp]
  exact ⟨_, rfl⟩

/-- C4: when the pass finds the declaration's group and the command has no
parent, the attach step performs exactly these state changes: the command
leaves the host's matching flat registry (the tree for slash declarations,
the bot registry for prefix/hybrid ones, the other side untouched), it
becomes a child of the found group with the group as its parent, the
attachment is recorded on the `_Subcommand`, the entry leaves
`_not_found` while `__commands` is unchanged, and no error is raised; if
the command already has a parent, the step raises and mutates nothing. -/
theorem c4_attach_effects (cfg : Config) (cog : String) (cid g : Nat) (s : BotState)
    (hf : findGroup cfg s cid = .ok (some g))
    (hcid : cid < s.store.length) (hg : g < s.store.length)
    (hsub : (getCmd s.store cid).sub.isSome)
    (hnf : (dictKeys (dictGetD s.notFound cog [])).Nodup) :
    ((getCmd s.store cid).parent = none →
      (processDecl cfg cog cid s).2 = none ∧
      (getCmd (processDecl cfg cog cid s).1.store cid).parent = some g ∧
      subGroupRef (processDecl cfg cog cid s).1.store cid = some g ∧
      cid ∈ (getCmd (processDecl cfg cog cid s).1.store g).children ∧
      (isAppSide (getCmd s.store cid).ty = true →
        (processDecl cfg cog cid s).1.treeTop =
          removeTop s.store s.treeTop (getCmd s.store cid).name ∧
        (processDecl cfg cog cid s).1.botTop = s.botTop) ∧
      (isAppSide (getCmd s.store cid).ty = false →
        (processDecl cfg cog cid s).1.botTop =
          removeTop s.store s.botTop (getCmd s.store cid).name ∧
        (processDecl cfg cog cid s).1.treeTop = s.treeTop) ∧
      lookup2 (processDecl cfg cog cid s).1.notFound cog (getCmd s.store cid).name = none ∧
      (processDecl cfg cog cid s).1.mgrCommands = s.mgrCommands) ∧
    (∀ p, (getCmd s.store cid).parent = some p →
      (processDecl cfg cog cid s).1 = s ∧ (processDecl cfg cog cid s).2.isSome) := by
  constructor
  · intro hp
    by_cases happ : isAppSide (getCmd s.store cid).ty
    · obtain ⟨s1, hadd⟩ := handleAppAdd_ok_of_no_parent g hp
      obtain ⟨hm, hn, hc, hst⟩ := handleAppAdd_dicts hadd
      obtain ⟨htree, hbot⟩ := handleAppAdd_tops hadd
      simp only [processDecl, hf, happ, if_true, hadd]
      refine ⟨trivial, ?_, ?_, ?_, ?_, ?_, ?_, ?_⟩
      · rw [hst]
        exact parent_attach s.store g cid hcid
      · rw [hst]
        exact subGroupRef_attach s.store g cid hcid hsub
      · rw [hst]
        exact children_attach s.store g cid hg
      · intro _
        refine ⟨?_, hbot⟩
        rw [htree, removeTop_congr (setSubGroup_name s.store cid (some g))]
      · intro hfalse
        exact absurd hfalse (by decide)
      · rw [hst, attachSet_name, hn]
        exact lookup2_delEntry_self hnf
      · exact hm
    · rw [Bool.not_eq_true] at happ
      obtain ⟨s1, hadd⟩ := handleExtAdd_ok_of_no_parent g hp
      obtain ⟨hm, hn, hc, hst⟩ := handleExtAdd_dicts hadd
      obtain ⟨hbot, htree⟩ := handleExtAdd_tops hadd
      simp only [processDecl, hf, happ, Bool.false_eq_true, if_false, hadd]
      refine ⟨trivial, ?_, ?_, ?_, ?_, ?_, ?_, ?_⟩
      · rw [hst]
        exact parent_attach s.store g cid hcid
      · rw [hst]
        exact subGroupRef_attach s.store g cid hcid hsub
      · rw [hst]
        exact children_attach s.store g cid hg
      · intro htrue
        exact absurd htrue (by decide)
      · intro _
        refine ⟨?_, htree⟩
        rw [hbot, removeTop_congr (setSubGroup_name s.store cid (some g))]
      · rw [hst, attachSet_name, hn]
        exact lookup2_delEntry_self hnf
      · exact hm
  · intro p hp
    by_cases happ : isAppSide (getCmd s.store cid).ty
    · obtain ⟨e, he⟩ := handleAppAdd_error_of_parent g hp
      simp only [processDecl, hf, happ, if_true, he]
      exact ⟨trivial, rfl⟩
    · rw [Bool.not_eq_true] at happ
      obtain ⟨e, he⟩ := handleExtAdd_error_of_parent g hp
      simp only [processDecl, hf, happ, Bool.false_eq_true, if_false, he]
      exact ⟨trivial, rfl⟩

/-- Witness for C4 at the reachable state `wState`. -/
theorem c4_witness :
    (processDecl cfgD "A" 0 wState).2 = none ∧
    (getCmd (processDecl cfgD "A" 0 wState).1.store 0).parent = some 1 ∧
    subGroupRef (processDecl cfgD "A" 0 wState).1.store 0 = some 1 ∧
    0 ∈ (getCmd (processDecl cfgD "A" 0 wState).1.store 1).children ∧
    (processDecl cfgD "A" 0 wState).1.botTop =
      removeTop wState.store wState.botTop (getCmd wState.store 0).name ∧
    lookup2 (processDecl cfgD "A" 0 wState).1.notFound "A" (getCmd wState.store 0).name = none ∧
    (processDecl cfgD "A" 0 wState).1.mgrCommands = wState.mgrCommands := by
  have h := (c4_attach_effects cfgD "A" 0 1 wState (by decide) (by decide) (by decide)
    (by decide) (by decide)).1 (by decide)
  exact ⟨h.1, h.2.1, h.2.2.1, h.2.2.2.1, (h.2.2.2.2.2.1 (by decide)).1,
    h.2.2.2.2.2.2.1, h.2.2.2.2.2.2.2⟩

/-! ## Claim C5 -/

/-- C5 (counterexample): unloading a plugin whose declaration was never
attached removes the entry from "still unresolved" (and from "all known")
without any attachment, so an entry can leave "still unresolved" other
than by being successfully attached to a group. -/
theorem c5_counterexample :
    lookup2 c5Mid.notFound "A" "c" = some 0 ∧
    subGroupRef c5Mid.store 0 = none ∧
    lookup2 c5End.notFound "A" "c" = none ∧
    subGroupRef c5End.store 0 = none ∧
    lookup2 c5End.mgrCommands "A" "c" = none := by
  decide

/-- C5 (amended): across every sequence of manager operations from a
well-formed start, every entry of "still unresolved" is also in
"all known" under the same plugin and key; during a resolution pass an
entry leaves "still unresolved" only via a successful attach (whenever a
pass step changes `_not_found`, the declaration's `_Subcommand` records a
group); and plugin unload removes the plugin's entries from both
collections at once, attached or not. -/
theorem c5_registry_invariant :
    (∀ (cfg : Config) (s0 : BotState) (ops : List Op), StateWF s0 → RegInv s0 →
      RegInv (runOps cfg s0 ops)) ∧
    (∀ (cfg : Config) (cog : String) (cid : Nat) (s : BotState),
      cid < s.store.length → (getCmd s.store cid).sub.isSome →
      (processDecl cfg cog cid s).1.notFound ≠ s.notFound →
      (subGroupRef (processDecl cfg cog cid s).1.store cid).isSome) ∧
    (∀ (s : BotState) (n : String), StateWF s →
      dictGet (cogRemove s n).mgrCommands n = none ∧
      dictGet (cogRemove s n).notFound n = none) :=
  ⟨fun _ s0 ops hwf hinv => (runOps_pres ops s0 hwf hinv).2,
   fun _ _ _ _ h1 h2 h3 => processDecl_remove_attach h1 h2 h3,
   fun s n hwf => cogRemove_buckets s n hwf⟩

/-- Witness for C5 on concrete reachable states. -/
theorem c5_witness :
    RegInv (runOps cfgD { store := c5Store } [Op.load { name := "A", prefixCmds := [0] }]) ∧
    (subGroupRef (processDecl cfgD "A" 0 wState).1.store 0).isSome ∧
    (dictGet (cogRemove c5Mid "A").mgrCommands "A" = none ∧
      dictGet (cogRemove c5Mid "A").notFound "A" = none) := by
  refine ⟨c5_registry_invariant.1 cfgD { store := c5Store }
      [Op.load { name := "A", prefixCmds := [0] }] ?_ ?_,
    c5_registry_invariant.2.1 cfgD "A" 0 wState (by decide) (by decide) (by decide),
    c5_registry_invariant.2.2 c5Mid "A" ?_⟩
  · exact ⟨⟨by decide, by decide⟩, ⟨by decide, by decide⟩⟩
  · intro cog nm cid h
    simp [lookup2, dictGet] at h
  · exact ⟨⟨by decide, by decide⟩, ⟨by decide, by decide⟩⟩

/-! ## Claim C7 -/

/-- C7 (counterexample): in the reachable state `c7Mid` the first pass has
attached the pending group `util` under `user` but left `x` (targeting
`user util`) unresolved; a second pass with no intervening state change
then attaches `x`, so running the pass twice performed additional attach
calls on the second run and changed the registry and the host tree. -/
theorem c7_counterexample :
    lookup2 c7Mid.notFound "C2" "x" = some 1 ∧
    (getCmd c7Mid.store 1).parent = none ∧
    c7Res.2 = none ∧
    (getCmd c7Res.1.store 1).parent = some 2 ∧
    lookup2 c7Res.1.notFound "C2" "x" = none ∧
    c7Res.1 ≠ c7Mid := by
  decide

/-- C7 (amended): the pass is a no-op — no attach or detach calls, no
error, registry and host tree unchanged — whenever no still-unresolved
declaration can find its group; it is not idempotent in general, because
attaching a pending group can create the very qualified name a sibling
declaration targets (see the counterexample). -/
theorem c7_noop_when_nothing_resolves (cfg : Config) (s : BotState)
    (hwf : (dictKeys s.notFound).Nodup)
    (hne : ∀ q ∈ s.notFound, q.2 ≠ [])
    (hfind : ∀ q ∈ s.notFound, ∀ p ∈ q.2, findGroup cfg s p.2 = .ok none) :
    handleCommands cfg s = (s, none) :=
  handleCommands_noop hwf hne hfind

/-- Witness for C7 at the reachable state `c1State`. -/
theorem c7_witness : handleCommands cfgD c1State = (c1State, none) :=
  c7_noop_when_nothing_resolves cfgD c1State (by decide) (by decide) (by decide)

/-! ## Claim C9 -/

/-- C9: when one declaration's name match hits a group of an incompatible
universe, `__find_group` raises a `TypeError` that propagates out of the
pass and out of `__cog_add` uncaught; the sibling declaration `y`, iterated
after the failing `x`, is not attempted in that pass — it stays in
"still unresolved" and unattached even though its own group `h` is
registered and findable. -/
theorem c9_abort :
    c9Res.2 = some "Cannot add Command to a HybridGroup." ∧
    lookup2 c9Res.1.notFound "C2" "x" = some 1 ∧
    lookup2 c9Res.1.notFound "C2" "y" = some 2 ∧
    subGroupRef c9Res.1.store 1 = none ∧
    subGroupRef c9Res.1.store 2 = none ∧
    (getCmd c9Res.1.store 2).parent = none ∧
    findGroup cfgD c9Res.1 2 = .ok (some 3) := by
  decide

/-! ## Claim C10 -/

set_option maxRecDepth 10000 in
/-- C10: within one plugin, pending declarations are keyed by the
command's short name — after loading a plugin with two annotated commands
both named `n`, each collection's bucket holds exactly the later-enumerated
declaration; the overwritten one (targeting `g1`) is referenced nowhere,
its `_Subcommand` is never resolved, and the unresolved report names only
the surviving declaration's target `g2`. -/
theorem c10_overwrite :
    dictGet c10Res.mgrCommands "A" = some [("n", 1)] ∧
    dictGet c10Res.notFound "A" = some [("n", 1)] ∧
    pendingEntries c10Res.notFound = [("A", "n", 1)] ∧
    subGroupRef c10Res.store 0 = none ∧
    (getCmd c10Res.store 0).parent = none ∧
    raiseForRemaining c10Res =
      some "Command group g2 for command n in cog A was not found." ∧
    strSub "g2" "Command group g2 for command n in cog A was not found." ∧
    ¬ strSub "g1" "Command group g2 for command n in cog A was not found." := by
  decide

end Subcommands
